import Mathlib

/-!
Verification of the citation indexing and overlap-resolution engine of the
flashcard frontend.

The development shallowly embeds the relevant TypeScript sources:

* `src/frontend/src/app/sets/[id]/edit/utils/citations.ts`
  (namespace `Citations` below),
* `src/frontend/src/app/sets/[id]/edit/components/EditSetForm.tsx`
  (namespace `EditSetForm` below), and
* `src/frontend/src/app/sets/[id]/edit/utils/timeRanges.ts`
  (namespace `TimeRanges` below).

JavaScript numbers are modelled as rationals (all values appearing in the
citation engine are produced by exact arithmetic on input literals), JS
`Map`s as insertion-ordered association lists, and JS `Set`-based
deduplication as first-occurrence deduplication of lists.
-/

namespace Flashcard

/-- First-occurrence deduplication of a list; models `[...new Set(xs)]`
(a JS `Set` iterates in insertion order). -/
def jsDedup (xs : List Int) : List Int :=
  xs.foldl (fun acc x => if x ∈ acc then acc else acc ++ [x]) []

/-- `Map.get(k)`, over the association-list model of a JS `Map`. -/
def mapGet {α β : Type} [DecidableEq α] (m : List (α × β)) (k : α) : Option β :=
  (m.find? (fun e => decide (e.1 = k))).map (·.2)

/-- `Map.set(k, v)`: replace the value in place when the key is present
(JS `Map.set` keeps the original insertion position), else append. -/
def mapSet {α β : Type} [DecidableEq α] (m : List (α × β)) (k : α) (v : β) :
    List (α × β) :=
  if m.any (fun e => decide (e.1 = k)) then
    m.map (fun e => if e.1 = k then (k, v) else e)
  else m ++ [(k, v)]

/-- `Map.delete(k)`. -/
def mapDelete {α β : Type} [DecidableEq α] (m : List (α × β)) (k : α) :
    List (α × β) :=
  m.filter (fun e => decide (e.1 ≠ k))

/-- The sequence of positions visited by the JS loop
`for (let pos = start; pos <= end; pos++)`. -/
def rangePositions (s e : ℚ) : List ℚ :=
  if s ≤ e then (List.range ((e - s).floor.toNat + 1)).map (fun i : ℕ => s + (i : ℚ))
  else []

/-- A citation record, as it reaches the citation engine
(`SourceTextWithCitations['citations']` entries). -/
structure Citation where
  citation_id : Int
  citation_type : String
  citation_data : List (ℚ × ℚ)
  card_id : Int
deriving DecidableEq, Repr

/-- A citation `hits` unit number `q` when the per-unit expansion of one of its
ranges visits `q` (`start <= q <= end` stepping by 1 from `start`). -/
def Citation.hits (citation : Citation) (q : ℚ) : Prop :=
  ∃ pr ∈ citation.citation_data, q ∈ rangePositions pr.1 pr.2

instance (citation : Citation) (q : ℚ) : Decidable (citation.hits q) := by
  unfold Citation.hits
  infer_instance

/-! ## Embedding of `utils/citations.ts` -/

namespace Citations

/-- The inner `Map<number, number[]>` of the citation map. -/
abbrev NumMap := List (ℚ × List Int)

/-- The outer `Map<CitationType, Map<number, number[]>>`. -/
abbrev TypeMap := List (String × NumMap)

/-- The innermost loop of `createCitationMap`:
`typeMap.set(pos, [...existing, citation.card_id])` for each position
(no deduplication at insertion time). -/
def pushPositions (card_id : Int) (typeMap : NumMap) (positions : List ℚ) : NumMap :=
  positions.foldl (fun tm pos =>
    mapSet tm pos (((mapGet tm pos).getD []) ++ [card_id])) typeMap

/-- The per-citation body of `createCitationMap`: expand every range of the
citation into the type's inner map. -/
def pushCitation (typeMap : NumMap) (citation : Citation) : NumMap :=
  citation.citation_data.foldl (fun tm pr =>
    pushPositions citation.card_id tm (rangePositions pr.1 pr.2)) typeMap

/-- `createCitationMap` of `utils/citations.ts`. The in-place mutation of the
inner `typeMap` object (fetched with `map.get(type)!` after a `map.set(type,
new Map())` on first sight of the type) is rendered as
read–update–write-back. -/
def createCitationMap (citations : List Citation) : TypeMap :=
  citations.foldl (fun map citation =>
    mapSet map citation.citation_type
      (pushCitation ((mapGet map citation.citation_type).getD []) citation)) []

/-- The card list the built index stores for `(elementType, elementNum)`
(empty when either level of the map has no entry). -/
def indexedCards (citationMap : TypeMap) (elementType : String) (elementNum : ℚ) :
    List Int :=
  (mapGet ((mapGet citationMap elementType).getD []) elementNum).getD []

/-- `findParagraphCitations`: reads the module cache (`none` models a cache
miss, in which case the source returns `[]`). -/
def findParagraphCitations (cache : Option TypeMap) (paragraphNum : ℚ) : List Int :=
  match cache with
  | none => []
  | some citationMap =>
    match mapGet citationMap "paragraph" with
    | none => []
    | some paragraphMap => (mapGet paragraphMap paragraphNum).getD []

/-- `hasSentenceLevelCitations`: scans the 100 sentence numbers
`paragraphNum*100 + i`, `0 <= i < 100`. -/
def hasSentenceLevelCitations (cache : Option TypeMap) (paragraphNum : ℚ) : Bool :=
  match cache with
  | none => false
  | some citationMap =>
    match mapGet citationMap "sentence_range" with
    | none => false
    | some sentenceMap =>
      (List.range 100).any (fun (i : ℕ) =>
        (mapGet sentenceMap (paragraphNum * 100 + (i : ℚ))).isSome)

/-- The generic tail of `findCitations`: `citationMap.get(elementType)`,
then `typeMap.get(elementNum) || []`, deduplicated. -/
def typeLookup (citationMap : TypeMap) (elementType : String) (elementNum : ℚ) :
    List Int :=
  match mapGet citationMap elementType with
  | none => []
  | some typeMap => jsDedup ((mapGet typeMap elementNum).getD [])

/-- `findCitations`: returns the lookup result together with the citation map
now held in the module cache (the source builds and stores the map on a cache
miss). A `sentence_range` query is first collapsed into the containing
paragraph, computed as `Math.floor(elementNum / 100)`. -/
def findCitations (cache : Option TypeMap) (elementType : String) (elementNum : ℚ)
    (citations : List Citation) : List Int × TypeMap :=
  let citationMap :=
    match cache with
    | some m => m
    | none => createCitationMap citations
  let res :=
    if elementType = "sentence_range" then
      let paragraphNum : ℚ := (((elementNum / 100).floor : ℤ) : ℚ)
      let paragraphCitations := findParagraphCitations (some citationMap) paragraphNum
      if paragraphCitations.length > 0 then paragraphCitations
      else typeLookup citationMap elementType elementNum
    else typeLookup citationMap elementType elementNum
  (res, citationMap)

/-- `shouldHighlight`. The `else` branch calls `findCitations`, which may
populate the cache; only its result is used here. -/
def shouldHighlight (cache : Option TypeMap) (elementType : String) (elementNum : ℚ)
    (citations : List Citation) : Bool :=
  if elementType = "section" then false
  else if elementType = "paragraph" then
    let paragraphCitations := findParagraphCitations cache elementNum
    decide (paragraphCitations.length > 0) && !(hasSentenceLevelCitations cache elementNum)
  else if elementType = "sentence_range" then
    let paragraphNum : ℚ := (((elementNum / 100).floor : ℤ) : ℚ)
    let paragraphCitations := findParagraphCitations cache paragraphNum
    decide (paragraphCitations.length = 0)
  else
    decide ((findCitations cache elementType elementNum citations).1.length > 0)

/-- `getAllSentenceCitations`: gathers the sentence-map entries at the 100
numbers `paragraphNum*100 + i`, `0 <= i < 100`, then deduplicates. -/
def getAllSentenceCitations (cache : Option TypeMap) (paragraphNum : ℚ) : List Int :=
  match cache with
  | none => []
  | some citationMap =>
    match mapGet citationMap "sentence_range" with
    | none => []
    | some sentenceMap =>
      jsDedup ((List.range 100).foldl (fun allCitations (i : ℕ) =>
        allCitations ++ ((mapGet sentenceMap (paragraphNum * 100 + (i : ℚ))).getD [])) [])

/-- `getListItemCitations`: gathers the list-map entries at the 50 numbers
`listNum + i`, `0 <= i < 50`, then deduplicates. -/
def getListItemCitations (cache : Option TypeMap) (listNum : ℚ) : List Int :=
  match cache with
  | none => []
  | some citationMap =>
    match mapGet citationMap "list" with
    | none => []
    | some listMap =>
      jsDedup ((List.range 50).foldl (fun allCitations (i : ℕ) =>
        allCitations ++ ((mapGet listMap (listNum + (i : ℚ))).getD [])) [])

end Citations

/-! ## Embedding of `components/EditSetForm.tsx` -/

namespace EditSetForm

/-- A `documentJson` content item. A paragraph carries `sentences` (only the
length is read by the source, so only the count is kept); a transcript segment
carries `start_time`/`end_time`. `none` models an absent (`undefined`) field. -/
structure DocItem where
  sentences : Option Nat
  start_time : Option ℚ
  end_time : Option ℚ
deriving DecidableEq, Repr

/-- A `documentJson` section. -/
structure DocSection where
  content : List DocItem
deriving DecidableEq, Repr

/-- The raw document JSON, as far as `createCitationMap` reads it. -/
structure DocJson where
  sections : List DocSection
deriving DecidableEq, Repr

abbrev NumMap := List (ℚ × List Int)

/-- The `CitationMap` record of `EditSetForm.tsx`. -/
structure CitationMap where
  sentences : NumMap
  paragraphs : NumMap
  sections : NumMap
  lists : NumMap
  tables : NumMap
  segments : NumMap
deriving DecidableEq, Repr

/-- JS `x < y` where `y` may be `undefined` (any comparison with `undefined`
is `false`). -/
def jsLtOpt (x : ℚ) (y : Option ℚ) : Bool :=
  match y with
  | some y => decide (x < y)
  | none => false

/-- JS `x > y` where `y` may be `undefined`. -/
def jsGtOpt (x : ℚ) (y : Option ℚ) : Bool :=
  match y with
  | some y => decide (x > y)
  | none => false

/-- `!(end < segment.start_time || start > segment.end_time)`. -/
def overlapsSegment (pr : ℚ × ℚ) (item : DocItem) : Bool :=
  !(jsLtOpt pr.2 item.start_time || jsGtOpt pr.1 item.end_time)

/-- The discrete insertion loop of the first pass: for each number in each
range, `targetMap.set(num, [...new Set([...existing, citation.card_id])])`. -/
def insertDiscrete (citation : Citation) (targetMap : NumMap) : NumMap :=
  citation.citation_data.foldl (fun tm pr =>
    (rangePositions pr.1 pr.2).foldl (fun tm num =>
      mapSet tm num (jsDedup (((mapGet tm num).getD []) ++ [citation.card_id]))) tm)
    targetMap

/-- The `video_timestamp` branch of the first pass: walk every content item of
every section keeping a global running segment index; at each item overlapped
by at least one range of the citation (the source `break`s after the first
matching range), add the card at that index. -/
def insertVideo (documentJson : DocJson) (citation : Citation) (targetMap : NumMap) :
    NumMap :=
  ((documentJson.sections.map DocSection.content).flatten.enum).foldl
    (fun tm gi =>
      if citation.citation_data.any (fun pr => overlapsSegment pr gi.2) then
        mapSet tm (gi.1 : ℚ) (jsDedup (((mapGet tm (gi.1 : ℚ)).getD []) ++ [citation.card_id]))
      else tm) targetMap

/-- The first-pass body for one citation: dispatch it to the map selected by
its `citation_type` (the `switch`); unknown types are skipped (`continue`). -/
def firstPassStep (documentJson : DocJson) (map : CitationMap) (citation : Citation) :
    CitationMap :=
  match citation.citation_type with
  | "sentence_range" => { map with sentences := insertDiscrete citation map.sentences }
  | "paragraph" => { map with paragraphs := insertDiscrete citation map.paragraphs }
  | "section" => { map with sections := insertDiscrete citation map.sections }
  | "list" => { map with lists := insertDiscrete citation map.lists }
  | "table" => { map with tables := insertDiscrete citation map.tables }
  | "video_timestamp" => { map with segments := insertVideo documentJson citation map.segments }
  | _ => map

/-- The first pass of `createCitationMap`. -/
def firstPass (documentJson : DocJson) (citations : List Citation) : CitationMap :=
  citations.foldl (firstPassStep documentJson) ⟨[], [], [], [], [], []⟩

/-- Running state of the collapse (second) pass: the sentence and paragraph
maps being rewritten plus `currentSentenceNum` and `currentParagraphNum`. -/
structure CollapseState where
  sentences : NumMap
  paragraphs : NumMap
  currentSentenceNum : Nat
  currentParagraphNum : Nat
deriving DecidableEq, Repr

/-- One step of the inner `sentenceRange.forEach`: gather a sentence's
citations into the accumulator and remove its entry when it has any. -/
def gatherStep (acc : List Int × NumMap) (sentNum : Nat) : List Int × NumMap :=
  let sentCits := (mapGet acc.2 (sentNum : ℚ)).getD []
  if sentCits.length > 0 then (acc.1 ++ sentCits, mapDelete acc.2 (sentNum : ℚ))
  else acc

/-- The collapse-pass body for one content item. Only items carrying
`sentences` (paragraphs) are processed; for a directly-cited paragraph the
sentence entries of its span are gathered, removed, and unioned into the
paragraph's entry. -/
def collapseItem (st : CollapseState) (item : DocItem) : CollapseState :=
  match item.sentences with
  | none => st
  | some len =>
    let paragraphCitations := (mapGet st.paragraphs (st.currentParagraphNum : ℚ)).getD []
    let st1 :=
      if paragraphCitations.length > 0 then
        let sentenceRange := (List.range len).map (fun i => st.currentSentenceNum + i)
        let gathered := sentenceRange.foldl gatherStep ([], st.sentences)
        let paragraphs :=
          if gathered.1.length > 0 then
            mapSet st.paragraphs (st.currentParagraphNum : ℚ)
              (jsDedup (paragraphCitations ++ gathered.1))
          else st.paragraphs
        { st with sentences := gathered.2, paragraphs := paragraphs }
      else st
    { st1 with currentSentenceNum := st1.currentSentenceNum + len,
               currentParagraphNum := st1.currentParagraphNum + 1 }

/-- The collapse pass: walk sections and their content in order. -/
def collapsePass (documentJson : DocJson) (st : CollapseState) : CollapseState :=
  documentJson.sections.foldl (fun st sec => sec.content.foldl collapseItem st) st

/-- `createCitationMap` of `EditSetForm.tsx`: the first pass builds the six
per-type maps, the second pass collapses sentence-level citations into
directly-cited paragraphs. -/
def createCitationMap (citations : List Citation) (documentJson : DocJson) :
    CitationMap :=
  let map := firstPass documentJson citations
  let st := collapsePass documentJson ⟨map.sentences, map.paragraphs, 1, 1⟩
  { map with sentences := st.sentences, paragraphs := st.paragraphs }

/-- The `(paragraphNumber, firstSentenceNumber, sentenceCount)` spans the
collapse pass's document walk assigns, starting from the given counters
(items without `sentences` are skipped without advancing either counter). -/
def paraSpansAux : List DocItem → Nat → Nat → List (Nat × Nat × Nat)
  | [], _, _ => []
  | item :: rest, curSent, curPara =>
    match item.sentences with
    | none => paraSpansAux rest curSent curPara
    | some len => (curPara, curSent, len) :: paraSpansAux rest (curSent + len) (curPara + 1)

/-- The content items of the document in walk order. -/
def docItems (documentJson : DocJson) : List DocItem :=
  (documentJson.sections.map DocSection.content).flatten

/-- The paragraph spans of the document walk (both counters start at 1). -/
def paraSpans (documentJson : DocJson) : List (Nat × Nat × Nat) :=
  paraSpansAux (docItems documentJson) 1 1

/-- `keyof CitationMap`. -/
inductive ElemKey
  | sentences | paragraphs | sections | lists | tables | segments
deriving DecidableEq, Repr

/-- The `citation_type` string dispatched to each map by the first-pass
`switch`. -/
def ElemKey.typeTag : ElemKey → String
  | .sentences => "sentence_range"
  | .paragraphs => "paragraph"
  | .sections => "section"
  | .lists => "list"
  | .tables => "table"
  | .segments => "video_timestamp"

/-- Field selection `citationMap[elementType]`. -/
def CitationMap.proj (citationMap : CitationMap) : ElemKey → NumMap
  | .sentences => citationMap.sentences
  | .paragraphs => citationMap.paragraphs
  | .sections => citationMap.sections
  | .lists => citationMap.lists
  | .tables => citationMap.tables
  | .segments => citationMap.segments

/-- `getCombinedCitations`: `citationMap[elementType].get(elementNum) || []`. -/
def getCombinedCitations (citationMap : CitationMap) (elementType : ElemKey)
    (elementNum : ℚ) : List Int :=
  (mapGet (citationMap.proj elementType) elementNum).getD []

end EditSetForm

/-! ## Embedding of `utils/timeRanges.ts` (the identical copy of
`findOverlappingRanges` also lives in `EditSetForm.tsx`) -/

namespace TimeRanges

/-- `TimeRangeInfo`; the source field `end` is a Lean keyword and is rendered
as `stop`. -/
structure TimeRangeInfo where
  start : ℚ
  stop : ℚ
  cardId : Int
deriving DecidableEq, Repr

/-- `Set.add` on the insertion-ordered card-id set. -/
def setAdd (cardIds : List Int) (x : Int) : List Int :=
  if x ∈ cardIds then cardIds else cardIds ++ [x]

/-- The backward expansion `for (let i = mid; i >= 0; i--)`: stop at the first
range with `end < segmentStart`, add every scanned range with
`start <= segmentEnd`. -/
def expandLeft (sortedRanges : List TimeRangeInfo) (segmentStart segmentEnd : ℚ) :
    Nat → List Int → List Int
  | i, cardIds =>
    match sortedRanges.get? i with
    | none => cardIds
    | some r =>
      if r.stop < segmentStart then cardIds
      else
        let cardIds := if r.start ≤ segmentEnd then setAdd cardIds r.cardId else cardIds
        match i with
        | 0 => cardIds
        | j + 1 => expandLeft sortedRanges segmentStart segmentEnd j cardIds

/-- The forward expansion `for (let i = mid + 1; i < sortedRanges.length; i++)`:
stop at the first range with `start > segmentEnd`, add every scanned range with
`end >= segmentStart`. -/
def expandRight (sortedRanges : List TimeRangeInfo) (segmentStart segmentEnd : ℚ)
    (i : Nat) (cardIds : List Int) : List Int :=
  if hi : i < sortedRanges.length then
    let r := sortedRanges.get ⟨i, hi⟩
    if r.start > segmentEnd then cardIds
    else
      expandRight sortedRanges segmentStart segmentEnd (i + 1)
        (if r.stop ≥ segmentStart then setAdd cardIds r.cardId else cardIds)
  else cardIds
termination_by sortedRanges.length - i

/-- The binary-search loop of `findOverlappingRanges`. `mid` is
`Math.floor((left + right) / 2)` (Lean's `Int` division is euclidean, which
agrees with `Math.floor` for the positive divisor 2). -/
def searchLoop (sortedRanges : List TimeRangeInfo) (segmentStart segmentEnd : ℚ)
    (left right : Int) : List Int :=
  if left ≤ right then
    let mid := (left + right) / 2
    match sortedRanges.get? mid.toNat with
    | none => []
    | some range =>
      if range.stop < segmentStart then
        searchLoop sortedRanges segmentStart segmentEnd (mid + 1) right
      else if range.start > segmentEnd then
        searchLoop sortedRanges segmentStart segmentEnd left (mid - 1)
      else
        expandRight sortedRanges segmentStart segmentEnd (mid.toNat + 1)
          (expandLeft sortedRanges segmentStart segmentEnd mid.toNat [])
  else []
termination_by (right + 1 - left).toNat
decreasing_by
  · omega
  · omega

/-- `findOverlappingRanges`. -/
def findOverlappingRanges (sortedRanges : List TimeRangeInfo)
    (segmentStart segmentEnd : ℚ) : List Int :=
  searchLoop sortedRanges segmentStart segmentEnd 0 ((sortedRanges.length : Int) - 1)

/-- The comparator `(a, b) => a.start - b.start || a.end - b.end` as a total
boolean order. -/
def rangeLE (a b : TimeRangeInfo) : Bool :=
  decide (a.start < b.start) || (decide (a.start = b.start) && decide (a.stop ≤ b.stop))

/-- Stable insertion of a range into an already-sorted list (placed after
every element that compares `<=` to it, so ties keep their original order). -/
def insertRange (r : TimeRangeInfo) : List TimeRangeInfo → List TimeRangeInfo
  | [] => [r]
  | x :: xs => if rangeLE x r then x :: insertRange r xs else r :: x :: xs

/-- `ranges.sort((a, b) => a.start - b.start || a.end - b.end)`. JS
`Array.sort` is specified to be stable, so its output is the unique stable
`(start, end)`-sorted permutation; it is modelled by a stable insertion
sort. -/
def sortRanges (ranges : List TimeRangeInfo) : List TimeRangeInfo :=
  ranges.foldr insertRange []

/-- `findCitationsForTimeRange`: flatten the `video_timestamp` citations into
`(start, end, cardId)` triples, sort by `(start, end)`, then search. -/
def findCitationsForTimeRange (citations : List Citation)
    (segmentStart segmentEnd : ℚ) : List Int :=
  let ranges := citations.foldl (fun ranges citation =>
    if citation.citation_type ≠ "video_timestamp" then ranges
    else ranges ++ citation.citation_data.map (fun pr =>
      TimeRangeInfo.mk pr.1 pr.2 citation.card_id)) []
  findOverlappingRanges (sortRanges ranges) segmentStart segmentEnd

/-- The spec's overlap predicate `NOT (end < segStart OR start > segEnd)`. -/
def overlaps (r : TimeRangeInfo) (segmentStart segmentEnd : ℚ) : Bool :=
  !(decide (r.stop < segmentStart) || decide (r.start > segmentEnd))

/-- Sortedness by `(start, end)` ascending, as the claim assumes. -/
def sortedByStartEnd : List TimeRangeInfo → Bool
  | [] => true
  | [_] => true
  | a :: b :: rest => rangeLE a b && sortedByStartEnd (b :: rest)

end TimeRanges

/-! ## Characterization of the `utils/citations.ts` index -/

/-! ## General lemmas about the JS `Set`/`Map`/range models -/

/-- A fold preserves any invariant its step preserves. -/
theorem foldl_preserves {β γ : Type} (P : β → Prop) (f : β → γ → β)
    (hf : ∀ b x, P b → P (f b x)) :
    ∀ (l : List γ) (b : β), P b → P (l.foldl f b) := by
  intro l
  induction l with
  | nil => exact fun b h => h
  | cons x xs ih =>
    intro b h
    rw [List.foldl_cons]
    exact ih _ (hf b x h)

theorem jsDedup_go_mem (xs acc : List Int) (c : Int) :
    c ∈ xs.foldl (fun acc x => if x ∈ acc then acc else acc ++ [x]) acc ↔
      c ∈ acc ∨ c ∈ xs := by
  induction xs generalizing acc with
  | nil => simp
  | cons x rest ih =>
    simp only [List.foldl_cons, ih, List.mem_cons]
    by_cases hx : x ∈ acc
    · simp only [if_pos hx]
      constructor
      · rintro (h | h)
        · exact Or.inl h
        · exact Or.inr (Or.inr h)
      · rintro (h | h | h)
        · exact Or.inl h
        · exact Or.inl (h ▸ hx)
        · exact Or.inr h
    · simp only [if_neg hx, List.mem_append, List.mem_singleton]
      tauto

theorem jsDedup_mem (xs : List Int) (c : Int) : c ∈ jsDedup xs ↔ c ∈ xs := by
  unfold jsDedup
  rw [jsDedup_go_mem]
  simp

theorem jsDedup_go_nodup (xs acc : List Int) (h : acc.Nodup) :
    (xs.foldl (fun acc x => if x ∈ acc then acc else acc ++ [x]) acc).Nodup := by
  induction xs generalizing acc with
  | nil => simpa
  | cons x rest ih =>
    simp only [List.foldl_cons]
    by_cases hx : x ∈ acc
    · rw [if_pos hx]; exact ih acc h
    · rw [if_neg hx]
      refine ih _ ?_
      simpa [List.nodup_append] using ⟨h, hx⟩

theorem jsDedup_nodup (xs : List Int) : (jsDedup xs).Nodup :=
  jsDedup_go_nodup xs [] List.nodup_nil

section MapLemmas

variable {α β : Type} [DecidableEq α]

@[simp] theorem mapGet_nil (k : α) : mapGet ([] : List (α × β)) k = none := rfl

theorem mapGet_cons (e : α × β) (m : List (α × β)) (k : α) :
    mapGet (e :: m) k = if e.1 = k then some e.2 else mapGet m k := by
  by_cases h : e.1 = k
  · simp [mapGet, List.find?, h]
  · simp [mapGet, List.find?, h]

theorem mapGet_set_self (m : List (α × β)) (k : α) (v : β) :
    mapGet (mapSet m k v) k = some v := by
  unfold mapSet
  split
  · rename_i hany
    induction m with
    | nil => simp at hany
    | cons e rest ih =>
      by_cases h : e.1 = k
      · simp [mapGet_cons, h]
      · simp only [List.any_cons, Bool.or_eq_true, decide_eq_true_eq] at hany
        rcases hany with h' | h'
        · exact absurd h' h
        · simp only [List.map_cons, if_neg h, mapGet_cons, h, if_false]
          exact ih h'
  · induction m with
    | nil => simp [mapGet_cons]
    | cons e rest ih =>
      rename_i hany
      simp only [List.any_cons, Bool.or_eq_true, decide_eq_true_eq, not_or] at hany
      simp only [List.cons_append, mapGet_cons, if_neg hany.1]
      exact ih (by simpa using hany.2)

theorem mapGet_map_replace_ne (m : List (α × β)) (k k' : α) (v : β) (h : k' ≠ k) :
    mapGet (m.map (fun e => if e.1 = k then (k, v) else e)) k' = mapGet m k' := by
  induction m with
  | nil => simp
  | cons e rest ih =>
    by_cases he : e.1 = k
    · simp only [List.map_cons, if_pos he, mapGet_cons]
      rw [if_neg (fun hk => h hk.symm), if_neg (he ▸ fun hk => h hk.symm)]
      exact ih
    · simp only [List.map_cons, if_neg he, mapGet_cons]
      split
      · rfl
      · exact ih

theorem mapGet_append_single_ne (m : List (α × β)) (k k' : α) (v : β) (h : k' ≠ k) :
    mapGet (m ++ [(k, v)]) k' = mapGet m k' := by
  induction m with
  | nil =>
    simp only [List.nil_append]
    rw [mapGet_cons, if_neg (fun hk => h hk.symm), mapGet_nil]
  | cons e rest ih =>
    simp only [List.cons_append]
    rw [mapGet_cons, mapGet_cons]
    split
    · rfl
    · exact ih

theorem mapGet_set_ne (m : List (α × β)) (k k' : α) (v : β) (h : k' ≠ k) :
    mapGet (mapSet m k v) k' = mapGet m k' := by
  unfold mapSet
  split
  · exact mapGet_map_replace_ne m k k' v h
  · exact mapGet_append_single_ne m k k' v h

theorem mapGet_mapDelete_self (m : List (α × β)) (k : α) :
    mapGet (mapDelete m k) k = none := by
  induction m with
  | nil => rfl
  | cons e rest ih =>
    by_cases h : e.1 = k
    · simpa [mapDelete, List.filter, h] using ih
    · simpa [mapDelete, List.filter, h, mapGet_cons] using ih

theorem mapGet_mapDelete_ne (m : List (α × β)) (k k' : α) (h : k' ≠ k) :
    mapGet (mapDelete m k) k' = mapGet m k' := by
  induction m with
  | nil => rfl
  | cons e rest ih =>
    rw [mapDelete, List.filter_cons]
    by_cases he : e.1 = k
    · rw [if_neg (by simp [he])]
      rw [mapGet_cons, if_neg (he ▸ fun hk => h hk.symm)]
      exact ih
    · rw [if_pos (by simp [he])]
      rw [mapGet_cons, mapGet_cons]
      split
      · rfl
      · exact ih

end MapLemmas

/-- `Rat.floor` (used by the executable definitions) agrees with the
`FloorRing` floor `⌊⋅⌋` used by the order lemmas. -/
theorem ratFloor_eq_intFloor (q : ℚ) : q.floor = ⌊q⌋ := by
  rw [Rat.floor_def', Rat.floor_def]

theorem mem_rangePositions (s e q : ℚ) :
    q ∈ rangePositions s e ↔ ∃ k : ℕ, q = s + (k : ℚ) ∧ s + (k : ℚ) ≤ e := by
  unfold rangePositions
  rw [ratFloor_eq_intFloor]
  split
  · rename_i hse
    constructor
    · intro hmem
      obtain ⟨k, hk, hkq⟩ := List.mem_map.mp hmem
      rw [List.mem_range] at hk
      subst hkq
      refine ⟨k, rfl, ?_⟩
      have h0 : (0 : ℤ) ≤ ⌊e - s⌋ := Int.floor_nonneg.mpr (by linarith)
      have hk' : (k : ℤ) ≤ ⌊e - s⌋ := by omega
      have hk2 : ((k : ℤ) : ℚ) ≤ (⌊e - s⌋ : ℚ) := Int.cast_le.mpr hk'
      have hk3 : (⌊e - s⌋ : ℚ) ≤ e - s := Int.floor_le _
      push_cast at hk2
      linarith
    · rintro ⟨k, rfl, hle⟩
      refine List.mem_map.mpr ⟨k, ?_, rfl⟩
      rw [List.mem_range]
      have hk : ((k : ℤ) : ℚ) ≤ e - s := by push_cast; linarith
      have hk' : (k : ℤ) ≤ ⌊e - s⌋ := Int.le_floor.mpr hk
      omega
  · rename_i hse
    constructor
    · intro h
      exact absurd h (List.not_mem_nil q)
    · rintro ⟨k, rfl, hle⟩
      exfalso
      apply hse
      have hk0 : (0 : ℚ) ≤ (k : ℚ) := by positivity
      linarith

theorem rangePositions_bounds (s e q : ℚ) (h : q ∈ rangePositions s e) :
    s ≤ q ∧ q ≤ e := by
  rw [mem_rangePositions] at h
  obtain ⟨k, rfl, hle⟩ := h
  constructor
  · have : (0 : ℚ) ≤ (k : ℚ) := by positivity
    linarith
  · exact hle

theorem int_mem_rangePositions (s e q : ℚ) (hs : s.den = 1) (hq : q.den = 1)
    (h1 : s ≤ q) (h2 : q ≤ e) : q ∈ rangePositions s e := by
  obtain ⟨a, rfl⟩ : ∃ a : ℤ, s = (a : ℚ) :=
    ⟨s.num, (Rat.coe_int_num_of_den_eq_one hs).symm⟩
  obtain ⟨b, rfl⟩ : ∃ b : ℤ, q = (b : ℚ) :=
    ⟨q.num, (Rat.coe_int_num_of_den_eq_one hq).symm⟩
  have hab : a ≤ b := by exact_mod_cast h1
  have hcast : (((b - a).toNat : ℕ) : ℚ) = (b : ℚ) - (a : ℚ) := by
    have h' : ((b - a).toNat : ℤ) = b - a := Int.toNat_of_nonneg (by omega)
    exact_mod_cast congrArg (fun z : ℤ => (z : ℚ)) h'
  rw [mem_rangePositions]
  refine ⟨(b - a).toNat, ?_, ?_⟩
  · rw [hcast]; ring
  · rw [hcast]; linarith

namespace Citations

theorem pushPositions_mem (positions : List ℚ) (card_id : Int) (typeMap : NumMap)
    (q : ℚ) (c : Int) :
    c ∈ (mapGet (pushPositions card_id typeMap positions) q).getD [] ↔
      c ∈ (mapGet typeMap q).getD [] ∨ (c = card_id ∧ q ∈ positions) := by
  induction positions generalizing typeMap with
  | nil => simp [pushPositions]
  | cons pos rest ih =>
    rw [pushPositions, List.foldl_cons, ← pushPositions]
    rw [ih]
    by_cases hq : q = pos
    · subst hq
      rw [mapGet_set_self]
      simp only [Option.getD_some, List.mem_append, List.mem_singleton, List.mem_cons]
      tauto
    · rw [mapGet_set_ne _ _ _ _ hq]
      simp only [List.mem_cons]
      constructor
      · rintro (h | ⟨rfl, h⟩)
        · exact Or.inl h
        · exact Or.inr ⟨rfl, Or.inr h⟩
      · rintro (h | ⟨rfl, h | h⟩)
        · exact Or.inl h
        · exact absurd h hq
        · exact Or.inr ⟨rfl, h⟩

theorem pushCitation_mem (citation : Citation) (typeMap : NumMap) (q : ℚ) (c : Int) :
    c ∈ (mapGet (pushCitation typeMap citation) q).getD [] ↔
      c ∈ (mapGet typeMap q).getD [] ∨ (c = citation.card_id ∧ citation.hits q) := by
  unfold pushCitation Citation.hits
  generalize citation.citation_data = data
  induction data generalizing typeMap with
  | nil => simp
  | cons pr rest ih =>
    rw [List.foldl_cons, ih, pushPositions_mem]
    simp only [List.mem_cons]
    constructor
    · rintro ((h | ⟨rfl, h⟩) | ⟨rfl, pr', hpr', h⟩)
      · exact Or.inl h
      · exact Or.inr ⟨rfl, pr, Or.inl rfl, h⟩
      · exact Or.inr ⟨rfl, pr', Or.inr hpr', h⟩
    · rintro (h | ⟨rfl, pr', hpr' | hpr', h⟩)
      · exact Or.inl (Or.inl h)
      · exact Or.inl (Or.inr ⟨rfl, hpr' ▸ h⟩)
      · exact Or.inr ⟨rfl, pr', hpr', h⟩

theorem createFold_indexedCards_mem (citations : List Citation) (map : TypeMap)
    (t : String) (q : ℚ) (c : Int) :
    c ∈ indexedCards (citations.foldl (fun map citation =>
        mapSet map citation.citation_type
          (pushCitation ((mapGet map citation.citation_type).getD []) citation)) map) t q ↔
      c ∈ indexedCards map t q ∨
        ∃ citation ∈ citations, citation.citation_type = t ∧
          citation.card_id = c ∧ citation.hits q := by
  induction citations generalizing map with
  | nil => simp
  | cons citation rest ih =>
    rw [List.foldl_cons, ih]
    by_cases ht : citation.citation_type = t
    · subst ht
      unfold indexedCards
      rw [mapGet_set_self]
      simp only [Option.getD_some]
      rw [pushCitation_mem]
      simp only [List.mem_cons]
      constructor
      · rintro ((h | ⟨rfl, h⟩) | ⟨cit, hcit, h1, rfl, h3⟩)
        · exact Or.inl h
        · exact Or.inr ⟨citation, Or.inl rfl, rfl, rfl, h⟩
        · exact Or.inr ⟨cit, Or.inr hcit, h1, rfl, h3⟩
      · rintro (h | ⟨cit, hcit | hcit, h1, rfl, h3⟩)
        · exact Or.inl (Or.inl h)
        · subst hcit; exact Or.inl (Or.inr ⟨rfl, h3⟩)
        · exact Or.inr ⟨cit, hcit, h1, rfl, h3⟩
    · unfold indexedCards
      rw [mapGet_set_ne _ _ _ _ (fun h => ht h.symm)]
      simp only [List.mem_cons]
      constructor
      · rintro (h | ⟨cit, hcit, h1, rfl, h3⟩)
        · exact Or.inl h
        · exact Or.inr ⟨cit, Or.inr hcit, h1, rfl, h3⟩
      · rintro (h | ⟨cit, hcit | hcit, h1, rfl, h3⟩)
        · exact Or.inl h
        · exact absurd (hcit ▸ h1) ht
        · exact Or.inr ⟨cit, hcit, h1, rfl, h3⟩

/-- Membership in the index built by `utils/citations.ts` is exactly "some
citation of that type hits the queried number". -/
theorem createCitationMap_mem (citations : List Citation) (t : String) (q : ℚ)
    (c : Int) :
    c ∈ indexedCards (createCitationMap citations) t q ↔
      ∃ citation ∈ citations, citation.citation_type = t ∧
        citation.card_id = c ∧ citation.hits q := by
  unfold createCitationMap
  rw [createFold_indexedCards_mem]
  simp [indexedCards]

end Citations

/-! ## Characterization of the `EditSetForm.tsx` first pass, and
emptiness preservation through the collapse pass -/

namespace EditSetForm

theorem dedupPosFold_mem (card : Int) (positions : List ℚ) (tm : NumMap) (q : ℚ)
    (c : Int) :
    c ∈ (mapGet (positions.foldl (fun tm num =>
        mapSet tm num (jsDedup (((mapGet tm num).getD []) ++ [card]))) tm) q).getD [] ↔
      c ∈ (mapGet tm q).getD [] ∨ (c = card ∧ q ∈ positions) := by
  induction positions generalizing tm with
  | nil => simp
  | cons pos rest ih =>
    rw [List.foldl_cons, ih]
    by_cases hq : q = pos
    · subst hq
      rw [mapGet_set_self]
      simp only [Option.getD_some, jsDedup_mem, List.mem_append, List.mem_singleton,
        List.mem_cons]
      tauto
    · rw [mapGet_set_ne _ _ _ _ hq]
      simp only [List.mem_cons]
      constructor
      · rintro (h | ⟨rfl, h⟩)
        · exact Or.inl h
        · exact Or.inr ⟨rfl, Or.inr h⟩
      · rintro (h | ⟨rfl, h | h⟩)
        · exact Or.inl h
        · exact absurd h hq
        · exact Or.inr ⟨rfl, h⟩

theorem insertDiscrete_mem (citation : Citation) (tm : NumMap) (q : ℚ) (c : Int) :
    c ∈ (mapGet (insertDiscrete citation tm) q).getD [] ↔
      c ∈ (mapGet tm q).getD [] ∨ (c = citation.card_id ∧ citation.hits q) := by
  unfold insertDiscrete Citation.hits
  generalize citation.citation_data = data
  induction data generalizing tm with
  | nil => simp
  | cons pr rest ih =>
    rw [List.foldl_cons, ih, dedupPosFold_mem]
    simp only [List.mem_cons]
    constructor
    · rintro ((h | ⟨rfl, h⟩) | ⟨rfl, pr', hpr', h⟩)
      · exact Or.inl h
      · exact Or.inr ⟨rfl, pr, Or.inl rfl, h⟩
      · exact Or.inr ⟨rfl, pr', Or.inr hpr', h⟩
    · rintro (h | ⟨rfl, pr', hpr' | hpr', h⟩)
      · exact Or.inl (Or.inl h)
      · exact Or.inl (Or.inr ⟨rfl, hpr' ▸ h⟩)
      · exact Or.inr ⟨rfl, pr', hpr', h⟩

theorem firstPassStep_proj (documentJson : DocJson) (map : CitationMap)
    (citation : Citation) (k : ElemKey) (hk : k ≠ .segments) :
    (firstPassStep documentJson map citation).proj k =
      if citation.citation_type = k.typeTag then insertDiscrete citation (map.proj k)
      else map.proj k := by
  cases k <;>
    first
      | exact absurd rfl hk
      | (unfold firstPassStep
         split <;> simp_all [CitationMap.proj, ElemKey.typeTag])

theorem firstPassFold_mem (documentJson : DocJson) (citations : List Citation)
    (map : CitationMap) (k : ElemKey) (hk : k ≠ .segments) (q : ℚ) (c : Int) :
    c ∈ (mapGet ((citations.foldl (firstPassStep documentJson) map).proj k) q).getD [] ↔
      c ∈ (mapGet (map.proj k) q).getD [] ∨
        ∃ citation ∈ citations, citation.citation_type = k.typeTag ∧
          citation.card_id = c ∧ citation.hits q := by
  induction citations generalizing map with
  | nil => simp
  | cons citation rest ih =>
    rw [List.foldl_cons, ih, firstPassStep_proj _ _ _ _ hk]
    by_cases ht : citation.citation_type = k.typeTag
    · rw [if_pos ht, insertDiscrete_mem]
      simp only [List.mem_cons]
      constructor
      · rintro ((h | ⟨rfl, h⟩) | ⟨cit, hcit, h1, rfl, h3⟩)
        · exact Or.inl h
        · exact Or.inr ⟨citation, Or.inl rfl, ht, rfl, h⟩
        · exact Or.inr ⟨cit, Or.inr hcit, h1, rfl, h3⟩
      · rintro (h | ⟨cit, hcit | hcit, h1, rfl, h3⟩)
        · exact Or.inl (Or.inl h)
        · subst hcit
          exact Or.inl (Or.inr ⟨rfl, h3⟩)
        · exact Or.inr ⟨cit, hcit, h1, rfl, h3⟩
    · rw [if_neg ht]
      simp only [List.mem_cons]
      constructor
      · rintro (h | ⟨cit, hcit, h1, rfl, h3⟩)
        · exact Or.inl h
        · exact Or.inr ⟨cit, Or.inr hcit, h1, rfl, h3⟩
      · rintro (h | ⟨cit, hcit | hcit, h1, rfl, h3⟩)
        · exact Or.inl h
        · exact absurd (hcit ▸ h1) ht
        · exact Or.inr ⟨cit, hcit, h1, rfl, h3⟩

/-- Membership in a discrete map built by the first pass is exactly "some
citation with the matching `citation_type` hits the queried number". -/
theorem firstPass_mem (documentJson : DocJson) (citations : List Citation)
    (k : ElemKey) (hk : k ≠ .segments) (q : ℚ) (c : Int) :
    c ∈ (mapGet ((firstPass documentJson citations).proj k) q).getD [] ↔
      ∃ citation ∈ citations, citation.citation_type = k.typeTag ∧
        citation.card_id = c ∧ citation.hits q := by
  unfold firstPass
  rw [firstPassFold_mem _ _ _ _ hk]
  have hbase : (mapGet ((⟨[], [], [], [], [], []⟩ : CitationMap).proj k) q).getD [] =
      ([] : List Int) := by
    cases k <;> rfl
  rw [hbase]
  simp

theorem gatherFold_empty (sns : List Nat) (p : List Int × NumMap) (q : ℚ)
    (h : (mapGet p.2 q).getD [] = []) :
    (mapGet (sns.foldl gatherStep p).2 q).getD [] = [] := by
  refine foldl_preserves (fun p : List Int × NumMap => (mapGet p.2 q).getD [] = [])
    _ ?_ sns p h
  intro p sn h
  unfold gatherStep
  dsimp only
  split
  · rename_i hc
    by_cases hq : q = (sn : ℚ)
    · subst hq
      rw [h] at hc
      simp at hc
    · rw [mapGet_mapDelete_ne _ _ _ hq]
      exact h
  · exact h

theorem collapseItem_sent_empty (st : CollapseState) (item : DocItem) (q : ℚ)
    (h : (mapGet st.sentences q).getD [] = []) :
    (mapGet (collapseItem st item).sentences q).getD [] = [] := by
  unfold collapseItem
  cases item.sentences with
  | none => exact h
  | some len =>
    dsimp only
    split
    · exact gatherFold_empty _ _ _ h
    · exact h

theorem collapseItem_par_empty (st : CollapseState) (item : DocItem) (q : ℚ)
    (h : (mapGet st.paragraphs q).getD [] = []) :
    (mapGet (collapseItem st item).paragraphs q).getD [] = [] := by
  unfold collapseItem
  cases item.sentences with
  | none => exact h
  | some len =>
    dsimp only
    split
    · rename_i hc
      split
      · by_cases hq : q = (st.currentParagraphNum : ℚ)
        · subst hq
          rw [h] at hc
          simp at hc
        · rw [mapGet_set_ne _ _ _ _ hq]
          exact h
      · exact h
    · exact h

theorem collapsePass_sent_empty (documentJson : DocJson) (st : CollapseState) (q : ℚ)
    (h : (mapGet st.sentences q).getD [] = []) :
    (mapGet (collapsePass documentJson st).sentences q).getD [] = [] := by
  unfold collapsePass
  refine foldl_preserves (fun st : CollapseState => (mapGet st.sentences q).getD [] = [])
    _ ?_ documentJson.sections st h
  intro st sec h
  refine foldl_preserves (fun st : CollapseState => (mapGet st.sentences q).getD [] = [])
    _ ?_ sec.content st h
  intro st item h
  exact collapseItem_sent_empty st item q h

theorem collapsePass_par_empty (documentJson : DocJson) (st : CollapseState) (q : ℚ)
    (h : (mapGet st.paragraphs q).getD [] = []) :
    (mapGet (collapsePass documentJson st).paragraphs q).getD [] = [] := by
  unfold collapsePass
  refine foldl_preserves (fun st : CollapseState => (mapGet st.paragraphs q).getD [] = [])
    _ ?_ documentJson.sections st h
  intro st sec h
  refine foldl_preserves (fun st : CollapseState => (mapGet st.paragraphs q).getD [] = [])
    _ ?_ sec.content st h
  intro st item h
  exact collapseItem_par_empty st item q h

/-- The collapse pass is the fold of `collapseItem` over the items in walk
order. -/
theorem collapsePass_eq_foldl (documentJson : DocJson) (st : CollapseState) :
    collapsePass documentJson st = (docItems documentJson).foldl collapseItem st := by
  unfold collapsePass docItems
  rw [List.foldl_flatten, List.foldl_map]

theorem collapseItem_none (st : CollapseState) (item : DocItem)
    (h : item.sentences = none) : collapseItem st item = st := by
  unfold collapseItem
  rw [h]

theorem collapseItem_counters (st : CollapseState) (item : DocItem) :
    (collapseItem st item).currentSentenceNum =
        st.currentSentenceNum + item.sentences.getD 0 ∧
      (collapseItem st item).currentParagraphNum =
        st.currentParagraphNum + (if item.sentences.isSome then 1 else 0) := by
  unfold collapseItem
  cases item.sentences with
  | none => simp
  | some len =>
    dsimp only
    split
    · split <;> simp
    · simp

theorem gatherFold_get_ne (sns : List Nat) (p : List Int × NumMap) (q : ℚ)
    (hq : ∀ sn ∈ sns, q ≠ (sn : ℚ)) :
    mapGet (sns.foldl gatherStep p).2 q = mapGet p.2 q := by
  induction sns generalizing p with
  | nil => rfl
  | cons sn rest ih =>
    rw [List.foldl_cons]
    rw [ih _ (fun x hx => hq x (List.mem_cons_of_mem _ hx))]
    unfold gatherStep
    dsimp only
    split
    · exact mapGet_mapDelete_ne _ _ _ (hq sn (List.mem_cons_self _ _))
    · rfl

theorem gatherFold_acc_sub (sns : List Nat) (p : List Int × NumMap) (c : Int)
    (hc : c ∈ p.1) : c ∈ (sns.foldl gatherStep p).1 := by
  induction sns generalizing p with
  | nil => exact hc
  | cons sn rest ih =>
    rw [List.foldl_cons]
    apply ih
    unfold gatherStep
    dsimp only
    split
    · exact List.mem_append_left _ hc
    · exact hc

theorem gatherFold_collect (sns : List Nat) (p : List Int × NumMap) (sn : Nat)
    (hmem : sn ∈ sns) (hnd : sns.Nodup) (c : Int)
    (hc : c ∈ (mapGet p.2 (sn : ℚ)).getD []) :
    c ∈ (sns.foldl gatherStep p).1 := by
  induction sns generalizing p with
  | nil => exact absurd hmem (List.not_mem_nil sn)
  | cons sn0 rest ih =>
    rw [List.foldl_cons]
    rcases List.mem_cons.mp hmem with rfl | htail
    · unfold gatherStep
      dsimp only
      split
      · exact gatherFold_acc_sub _ _ _ (List.mem_append_right _ hc)
      · rename_i hlen
        simp only [gt_iff_lt, not_lt, Nat.le_zero, List.length_eq_zero] at hlen
        rw [hlen] at hc
        exact absurd hc (List.not_mem_nil c)
    · have hne : sn ≠ sn0 := by
        intro h
        subst h
        exact (List.nodup_cons.mp hnd).1 htail
    -- the head step leaves sn's entry unchanged
      have hpres : (mapGet (gatherStep p sn0).2 (sn : ℚ)).getD [] =
          (mapGet p.2 (sn : ℚ)).getD [] := by
        unfold gatherStep
        dsimp only
        split
        · rw [mapGet_mapDelete_ne _ _ _ (by exact_mod_cast hne)]
        · rfl
      exact ih (gatherStep p sn0) htail (List.nodup_cons.mp hnd).2 (hpres ▸ hc)

theorem gatherFold_entry_empty (sns : List Nat) (p : List Int × NumMap) (sn : Nat)
    (hmem : sn ∈ sns) :
    (mapGet (sns.foldl gatherStep p).2 (sn : ℚ)).getD [] = [] := by
  induction sns generalizing p with
  | nil => exact absurd hmem (List.not_mem_nil sn)
  | cons sn0 rest ih =>
    rw [List.foldl_cons]
    rcases List.mem_cons.mp hmem with rfl | htail
    · have hempty : (mapGet (gatherStep p sn).2 (sn : ℚ)).getD [] = [] := by
        unfold gatherStep
        dsimp only
        split
        · rw [mapGet_mapDelete_self]
          rfl
        · rename_i hlen
          simp only [gt_iff_lt, not_lt, Nat.le_zero, List.length_eq_zero] at hlen
          exact hlen
      exact gatherFold_empty rest _ _ hempty
    · exact ih (gatherStep p sn0) htail

theorem mem_sentenceRange (s0 len sn : Nat) :
    sn ∈ (List.range len).map (fun i => s0 + i) ↔ s0 ≤ sn ∧ sn < s0 + len := by
  simp only [List.mem_map, List.mem_range]
  constructor
  · rintro ⟨i, hi, rfl⟩
    omega
  · rintro ⟨h1, h2⟩
    exact ⟨sn - s0, by omega, by omega⟩

theorem nodup_sentenceRange (s0 len : Nat) :
    ((List.range len).map (fun i => s0 + i)).Nodup :=
  (List.nodup_range len).map (fun a b h => by omega)

/-- Effect of the collapse step on a directly-cited paragraph: the sentence
entries of its span are emptied, every card they held moves into the
paragraph's entry, and the paragraph's previous cards are kept. -/
theorem collapseItem_cited (st : CollapseState) (item : DocItem) (len : Nat)
    (hitem : item.sentences = some len)
    (hpc : (mapGet st.paragraphs (st.currentParagraphNum : ℚ)).getD [] ≠ []) :
    (∀ sn : Nat, st.currentSentenceNum ≤ sn → sn < st.currentSentenceNum + len →
      (mapGet (collapseItem st item).sentences (sn : ℚ)).getD [] = []) ∧
    (∀ sn : Nat, st.currentSentenceNum ≤ sn → sn < st.currentSentenceNum + len →
      ∀ c ∈ (mapGet st.sentences (sn : ℚ)).getD [],
        c ∈ (mapGet (collapseItem st item).paragraphs
              (st.currentParagraphNum : ℚ)).getD []) ∧
    (∀ c ∈ (mapGet st.paragraphs (st.currentParagraphNum : ℚ)).getD [],
      c ∈ (mapGet (collapseItem st item).paragraphs
            (st.currentParagraphNum : ℚ)).getD []) := by
  have hlen : ((mapGet st.paragraphs (st.currentParagraphNum : ℚ)).getD []).length > 0 :=
    List.length_pos.mpr hpc
  unfold collapseItem
  rw [hitem]
  dsimp only
  rw [if_pos hlen]
  dsimp only
  refine ⟨?_, ?_, ?_⟩
  · intro sn hs1 hs2
    exact gatherFold_entry_empty _ _ sn ((mem_sentenceRange _ _ _).mpr ⟨hs1, hs2⟩)
  · intro sn hs1 hs2 c hc
    have hcol : c ∈ (((List.range len).map (fun i => st.currentSentenceNum + i)).foldl
        gatherStep ([], st.sentences)).1 :=
      gatherFold_collect _ _ sn ((mem_sentenceRange _ _ _).mpr ⟨hs1, hs2⟩)
        (nodup_sentenceRange _ _) c hc
    rw [if_pos (List.length_pos.mpr (List.ne_nil_of_mem hcol))]
    rw [mapGet_set_self]
    simp only [Option.getD_some, jsDedup_mem, List.mem_append]
    exact Or.inr hcol
  · intro c hc
    split
    · rw [mapGet_set_self]
      simp only [Option.getD_some, jsDedup_mem, List.mem_append]
      exact Or.inl hc
    · exact hc

/-- Effect of the collapse step on an uncited paragraph: the maps are left
untouched. -/
theorem collapseItem_uncited (st : CollapseState) (item : DocItem) (len : Nat)
    (hitem : item.sentences = some len)
    (hpc : (mapGet st.paragraphs (st.currentParagraphNum : ℚ)).getD [] = []) :
    (collapseItem st item).sentences = st.sentences ∧
    (collapseItem st item).paragraphs = st.paragraphs := by
  unfold collapseItem
  rw [hitem]
  dsimp only
  rw [if_neg (by rw [hpc]; simp)]
  exact ⟨rfl, rfl⟩

theorem collapseItem_par_get_ne (st : CollapseState) (item : DocItem) (q : ℚ)
    (hq : q ≠ (st.currentParagraphNum : ℚ)) :
    mapGet (collapseItem st item).paragraphs q = mapGet st.paragraphs q := by
  unfold collapseItem
  cases item.sentences with
  | none => rfl
  | some len =>
    dsimp only
    split
    · split
      · exact mapGet_set_ne _ _ _ _ hq
      · rfl
    · rfl

theorem collapseItem_sent_get_out (st : CollapseState) (item : DocItem) (q : ℚ)
    (hq : ∀ sn : Nat, st.currentSentenceNum ≤ sn →
      sn < st.currentSentenceNum + item.sentences.getD 0 → q ≠ (sn : ℚ)) :
    mapGet (collapseItem st item).sentences q = mapGet st.sentences q := by
  unfold collapseItem
  cases hitem : item.sentences with
  | none => rfl
  | some len =>
    dsimp only
    split
    · refine gatherFold_get_ne _ _ _ ?_
      intro sn hsn
      obtain ⟨h1, h2⟩ := (mem_sentenceRange _ _ _).mp hsn
      exact hq sn h1 (by rw [hitem]; simpa using h2)
    · rfl

/-- Sentence entries strictly below the running sentence counter are never
touched by the remaining walk. -/
theorem walk_sent_lo (items : List DocItem) :
    ∀ (st : CollapseState) (qn : Nat), qn < st.currentSentenceNum →
      mapGet (items.foldl collapseItem st).sentences (qn : ℚ) =
        mapGet st.sentences (qn : ℚ) := by
  induction items with
  | nil => intro st qn h; rfl
  | cons item rest ih =>
    intro st qn h
    rw [List.foldl_cons]
    have hcnt := (collapseItem_counters st item).1
    rw [ih _ qn (by omega)]
    apply collapseItem_sent_get_out
    intro sn hs1 hs2
    have : qn ≠ sn := by omega
    exact_mod_cast this

/-- Paragraph entries strictly below the running paragraph counter are never
touched by the remaining walk. -/
theorem walk_par_lo (items : List DocItem) :
    ∀ (st : CollapseState) (qn : Nat), qn < st.currentParagraphNum →
      mapGet (items.foldl collapseItem st).paragraphs (qn : ℚ) =
        mapGet st.paragraphs (qn : ℚ) := by
  induction items with
  | nil => intro st qn h; rfl
  | cons item rest ih =>
    intro st qn h
    rw [List.foldl_cons]
    have hcnt := (collapseItem_counters st item).2
    rw [ih _ qn (by omega)]
    apply collapseItem_par_get_ne
    have : qn ≠ st.currentParagraphNum := by omega
    exact_mod_cast this

/-- Main walk lemma: for a span `(p, s0, len)` of the remaining walk, the
final maps behave as the collapse policy prescribes, relative to reference
maps `Ms`/`Mp` that agree with the state on all not-yet-visited sentence and
paragraph numbers. -/
theorem walk_spans (Ms Mp : NumMap) :
    ∀ (items : List DocItem) (st : CollapseState),
      (∀ qn : Nat, st.currentSentenceNum ≤ qn →
        mapGet st.sentences (qn : ℚ) = mapGet Ms (qn : ℚ)) →
      (∀ qn : Nat, st.currentParagraphNum ≤ qn →
        mapGet st.paragraphs (qn : ℚ) = mapGet Mp (qn : ℚ)) →
      ∀ p s0 len,
        (p, s0, len) ∈ paraSpansAux items st.currentSentenceNum st.currentParagraphNum →
      (((mapGet Mp (p : ℚ)).getD [] ≠ [] →
        (∀ sn : Nat, s0 ≤ sn → sn < s0 + len →
          (mapGet (items.foldl collapseItem st).sentences (sn : ℚ)).getD [] = []) ∧
        (∀ sn : Nat, s0 ≤ sn → sn < s0 + len →
          ∀ c ∈ (mapGet Ms (sn : ℚ)).getD [],
            c ∈ (mapGet (items.foldl collapseItem st).paragraphs (p : ℚ)).getD []) ∧
        (∀ c ∈ (mapGet Mp (p : ℚ)).getD [],
          c ∈ (mapGet (items.foldl collapseItem st).paragraphs (p : ℚ)).getD [])) ∧
      ((mapGet Mp (p : ℚ)).getD [] = [] →
        (∀ sn : Nat, s0 ≤ sn → sn < s0 + len →
          mapGet (items.foldl collapseItem st).sentences (sn : ℚ) =
            mapGet Ms (sn : ℚ)) ∧
        mapGet (items.foldl collapseItem st).paragraphs (p : ℚ) =
          mapGet Mp (p : ℚ))) := by
  intro items
  induction items with
  | nil =>
    intro st Hs Hp p s0 len hmem
    exact absurd hmem (List.not_mem_nil _)
  | cons item rest ih =>
    intro st Hs Hp p s0 len hmem
    rw [List.foldl_cons]
    cases hitem : item.sentences with
    | none =>
      rw [collapseItem_none st item hitem]
      apply ih st Hs Hp p s0 len
      unfold paraSpansAux at hmem
      rw [hitem] at hmem
      exact hmem
    | some len0 =>
      have hcs := (collapseItem_counters st item).1
      have hcp := (collapseItem_counters st item).2
      rw [hitem] at hcs hcp
      simp only [Option.getD_some, Option.isSome_some, if_pos] at hcs hcp
      unfold paraSpansAux at hmem
      rw [hitem] at hmem
      rcases List.mem_cons.mp hmem with hhead | htail
      · -- this item is the span's paragraph
        obtain ⟨hp, hs0, hlen⟩ : p = st.currentParagraphNum ∧
            s0 = st.currentSentenceNum ∧ len = len0 := by
          have h1 := congrArg Prod.fst hhead
          have h2 := congrArg (fun x => x.2.1) hhead
          have h3 := congrArg (fun x => x.2.2) hhead
          exact ⟨h1, h2, h3⟩
        subst hp
        subst hs0
        subst hlen
        have hpcMp : (mapGet st.paragraphs (st.currentParagraphNum : ℚ)).getD [] =
            (mapGet Mp (st.currentParagraphNum : ℚ)).getD [] := by
          rw [Hp st.currentParagraphNum (le_refl _)]
        constructor
        · intro hne
          have hpc : (mapGet st.paragraphs (st.currentParagraphNum : ℚ)).getD [] ≠ [] := by
            rw [hpcMp]
            exact hne
          obtain ⟨hi1, hi2, hi3⟩ := collapseItem_cited st item len hitem hpc
          refine ⟨?_, ?_, ?_⟩
          · intro sn h1 h2
            rw [walk_sent_lo rest _ sn (by omega)]
            exact hi1 sn h1 h2
          · intro sn h1 h2 c hc
            rw [walk_par_lo rest _ st.currentParagraphNum (by omega)]
            refine hi2 sn h1 h2 c ?_
            rw [Hs sn h1]
            exact hc
          · intro c hc
            rw [walk_par_lo rest _ st.currentParagraphNum (by omega)]
            apply hi3 c
            rw [hpcMp]
            exact hc
        · intro hempty
          have hpc : (mapGet st.paragraphs (st.currentParagraphNum : ℚ)).getD [] = [] := by
            rw [hpcMp]
            exact hempty
          obtain ⟨hu1, hu2⟩ := collapseItem_uncited st item len hitem hpc
          constructor
          · intro sn h1 h2
            rw [walk_sent_lo rest _ sn (by omega), hu1]
            exact Hs sn h1
          · rw [walk_par_lo rest _ st.currentParagraphNum (by omega), hu2]
            exact Hp st.currentParagraphNum (le_refl _)
      · -- the span lies further along the walk
        have Hs' : ∀ qn : Nat, (collapseItem st item).currentSentenceNum ≤ qn →
            mapGet (collapseItem st item).sentences (qn : ℚ) = mapGet Ms (qn : ℚ) := by
          intro qn hqn
          rw [hcs] at hqn
          rw [collapseItem_sent_get_out st item (qn : ℚ) ?_]
          · exact Hs qn (by omega)
          · intro sn h1 h2
            rw [hitem] at h2
            simp only [Option.getD_some] at h2
            have : qn ≠ sn := by omega
            exact_mod_cast this
        have Hp' : ∀ qn : Nat, (collapseItem st item).currentParagraphNum ≤ qn →
            mapGet (collapseItem st item).paragraphs (qn : ℚ) = mapGet Mp (qn : ℚ) := by
          intro qn hqn
          rw [hcp] at hqn
          rw [collapseItem_par_get_ne st item (qn : ℚ) ?_]
          · exact Hp qn (by omega)
          · have : qn ≠ st.currentParagraphNum := by omega
            exact_mod_cast this
        have hmem' : (p, s0, len) ∈ paraSpansAux rest
            (collapseItem st item).currentSentenceNum
            (collapseItem st item).currentParagraphNum := by
          rw [hcs, hcp]
          exact htail
        exact ih (collapseItem st item) Hs' Hp' p s0 len hmem'

end EditSetForm

/-! ## Claim theorems -/

open Citations EditSetForm TimeRanges

/-- **C1** (code bug evidence). The claim states that `findOverlappingRanges`
on a `(start, end)`-sorted array returns exactly the card ids of the
overlapping ranges, overlap being `NOT (rangeEnd < segStart OR rangeStart >
segEnd)`. The code violates this: on the sorted input
`[(0,100,card 1), (1,2,card 2), (3,4,card 3)]` with query segment `[50,60]`
the backward/binary-search cutoffs assume range ends are monotone, so the
nested range `(0,100)` — which does overlap `[50,60]` — is never found and
the result is empty. `findCitationsForTimeRange` over the corresponding
`video_timestamp` citations returns the same empty result. -/
theorem c1_findOverlappingRanges_misses_nested_overlap :
    sortedByStartEnd
      [⟨0, 100, 1⟩, ⟨1, 2, 2⟩, ⟨3, 4, 3⟩] = true ∧
    overlaps ⟨0, 100, 1⟩ 50 60 = true ∧
    findOverlappingRanges
      [⟨0, 100, 1⟩, ⟨1, 2, 2⟩, ⟨3, 4, 3⟩] 50 60 = [] ∧
    findCitationsForTimeRange
      [⟨101, "video_timestamp", [(0, 100)], 1⟩,
       ⟨102, "video_timestamp", [(1, 2)], 2⟩,
       ⟨103, "video_timestamp", [(3, 4)], 3⟩] 50 60 = [] := by
  have h3 : findOverlappingRanges
      [⟨0, 100, 1⟩, ⟨1, 2, 2⟩, ⟨3, 4, 3⟩] 50 60 = [] := by
    rw [findOverlappingRanges]
    rw [searchLoop]
    norm_num
    rw [searchLoop]
    norm_num
    simp only [show Int.toNat 2 = 2 from rfl]
    norm_num
    rw [searchLoop]
    norm_num
  refine ⟨by decide, by decide, h3, ?_⟩
  have hb : findCitationsForTimeRange
      [⟨101, "video_timestamp", [(0, 100)], 1⟩,
       ⟨102, "video_timestamp", [(1, 2)], 2⟩,
       ⟨103, "video_timestamp", [(3, 4)], 3⟩] 50 60 =
      findOverlappingRanges
        [⟨0, 100, 1⟩, ⟨1, 2, 2⟩, ⟨3, 4, 3⟩] 50 60 := rfl
  rw [hb]
  exact h3

/-- **C9**: index build is deterministic and idempotent. A cold
`findCitations` call stores exactly `createCitationMap citations` as the
cached map, and any second query answered against that warmed cache returns
exactly what a fresh rebuild returns. -/
theorem c9_build_idempotent (citations : List Citation) (t1 t2 : String)
    (n1 n2 : ℚ) :
    (Citations.findCitations none t1 n1 citations).2 =
        Citations.createCitationMap citations ∧
    (Citations.findCitations
        (some ((Citations.findCitations none t1 n1 citations).2)) t2 n2 citations).1 =
      (Citations.findCitations none t2 n2 citations).1 := by
  exact ⟨rfl, rfl⟩

/-- **C4**: range hits are inclusive on both endpoints. For integer range
data and an integer unit number `n`, the built index lists a card at `n`
exactly when one of the corresponding citation's `[start, end]` pairs
satisfies `start <= n <= end`. -/
theorem c4_range_inclusive (citations : List Citation) (t : String) (n : ℚ)
    (c : Int)
    (hint : ∀ citation ∈ citations, citation.citation_type = t →
      ∀ pr ∈ citation.citation_data, (pr.1 : ℚ).den = 1 ∧ (pr.2 : ℚ).den = 1)
    (hn : n.den = 1) :
    c ∈ Citations.indexedCards (Citations.createCitationMap citations) t n ↔
      ∃ citation ∈ citations, citation.citation_type = t ∧
        citation.card_id = c ∧
        ∃ pr ∈ citation.citation_data, pr.1 ≤ n ∧ n ≤ pr.2 := by
  rw [createCitationMap_mem]
  constructor
  · rintro ⟨citation, hmem, ht, hc, pr, hpr, hq⟩
    obtain ⟨h1, h2⟩ := rangePositions_bounds _ _ _ hq
    exact ⟨citation, hmem, ht, hc, pr, hpr, h1, h2⟩
  · rintro ⟨citation, hmem, ht, hc, pr, hpr, h1, h2⟩
    refine ⟨citation, hmem, ht, hc, pr, hpr, ?_⟩
    exact int_mem_rangePositions _ _ _ (hint citation hmem ht pr hpr).1 hn h1 h2

theorem gatherWindow_mem (sm : Citations.NumMap) (f : ℕ → ℚ) (l : List ℕ)
    (acc : List Int) (c : Int) :
    c ∈ l.foldl (fun allCitations i => allCitations ++ ((mapGet sm (f i)).getD [])) acc ↔
      c ∈ acc ∨ ∃ i ∈ l, c ∈ (mapGet sm (f i)).getD [] := by
  induction l generalizing acc with
  | nil => simp
  | cons i rest ih =>
    rw [List.foldl_cons, ih]
    simp only [List.mem_append, List.mem_cons]
    constructor
    · rintro ((h | h) | ⟨j, hj, h⟩)
      · exact Or.inl h
      · exact Or.inr ⟨i, Or.inl rfl, h⟩
      · exact Or.inr ⟨j, Or.inr hj, h⟩
    · rintro (h | ⟨j, rfl | hj, h⟩)
      · exact Or.inl (Or.inl h)
      · exact Or.inl (Or.inr h)
      · exact Or.inr ⟨j, hj, h⟩

/-- `findParagraphCitations` on a present cache is a raw index lookup under
type `paragraph`. -/
theorem findParagraphCitations_some (m : Citations.TypeMap) (p : ℚ) :
    Citations.findParagraphCitations (some m) p = Citations.indexedCards m "paragraph" p := by
  unfold Citations.findParagraphCitations Citations.indexedCards
  cases h : mapGet m "paragraph" <;> simp [h]

/-- The generic lookup tail deduplicates the raw index entry. -/
theorem typeLookup_eq (m : Citations.TypeMap) (t : String) (n : ℚ) :
    Citations.typeLookup m t n = jsDedup (Citations.indexedCards m t n) := by
  unfold Citations.typeLookup Citations.indexedCards
  cases mapGet m t <;> simp [jsDedup]

/-- **C8**: the paragraph-to-sentence and list-to-item gathering scans a fixed
window rather than true membership: `getAllSentenceCitations` is exactly the
deduplicated union of the sentence-map entries at the 100 numbers
`p*100 .. p*100+99`, and `getListItemCitations` is exactly the deduplicated
union of the list-map entries at the 50 numbers `l .. l+49`; a citation hit
outside these windows never contributes (the iff's right-to-left reading). -/
theorem c8_fixed_window (citationMap : Citations.TypeMap) (paragraphNum listNum : ℚ)
    (c : Int) :
    (c ∈ Citations.getAllSentenceCitations (some citationMap) paragraphNum ↔
      ∃ i : ℕ, i < 100 ∧
        c ∈ Citations.indexedCards citationMap "sentence_range"
          (paragraphNum * 100 + (i : ℚ))) ∧
    (Citations.getAllSentenceCitations (some citationMap) paragraphNum).Nodup ∧
    (c ∈ Citations.getListItemCitations (some citationMap) listNum ↔
      ∃ i : ℕ, i < 50 ∧
        c ∈ Citations.indexedCards citationMap "list" (listNum + (i : ℚ))) ∧
    (Citations.getListItemCitations (some citationMap) listNum).Nodup := by
  unfold Citations.getAllSentenceCitations Citations.getListItemCitations
    Citations.indexedCards
  refine ⟨?_, ?_, ?_, ?_⟩
  · cases h : mapGet citationMap "sentence_range" with
    | none => simp [h]
    | some sentenceMap =>
      simp only [h, Option.getD_some, jsDedup_mem]
      rw [gatherWindow_mem sentenceMap (fun i => paragraphNum * 100 + (i : ℚ))]
      simp [List.mem_range]
  · cases h : mapGet citationMap "sentence_range" with
    | none => simp [h]
    | some sentenceMap =>
      simp only [h]
      exact jsDedup_nodup _
  · cases h : mapGet citationMap "list" with
    | none => simp [h]
    | some listMap =>
      simp only [h, Option.getD_some, jsDedup_mem]
      rw [gatherWindow_mem listMap (fun i => listNum + (i : ℚ))]
      simp [List.mem_range]
  · cases h : mapGet citationMap "list" with
    | none => simp [h]
    | some listMap =>
      simp only [h]
      exact jsDedup_nodup _

/-- **C10** (implicit behaviour of `utils/citations.ts`): a `sentence_range`
lookup assumes sentence `n` belongs to paragraph `floor(n/100)`. When that
paragraph has paragraph-level citations, `findCitations` returns exactly the
paragraph's citation list (ignoring the sentence's own entries) and
`shouldHighlight` is `false`; when it has none, `findCitations` returns
exactly the sentence's own citation set and `shouldHighlight` is `true`.
`shouldHighlight` reads the module cache, modelled here in its warmed state
(`some (createCitationMap citations)`). -/
theorem c10_sentence_paragraph_scheme (citations : List Citation) (n : ℚ) :
    ((∃ citation ∈ citations, citation.citation_type = "paragraph" ∧
        citation.hits (((n / 100).floor : ℤ) : ℚ)) →
      (Citations.findCitations none "sentence_range" n citations).1 =
          Citations.findParagraphCitations
            (some (Citations.createCitationMap citations)) (((n / 100).floor : ℤ) : ℚ) ∧
        Citations.shouldHighlight (some (Citations.createCitationMap citations))
          "sentence_range" n citations = false) ∧
    ((¬ ∃ citation ∈ citations, citation.citation_type = "paragraph" ∧
        citation.hits (((n / 100).floor : ℤ) : ℚ)) →
      (∀ c : Int,
          c ∈ (Citations.findCitations none "sentence_range" n citations).1 ↔
            ∃ citation ∈ citations, citation.citation_type = "sentence_range" ∧
              citation.card_id = c ∧ citation.hits n) ∧
        Citations.shouldHighlight (some (Citations.createCitationMap citations))
          "sentence_range" n citations = true) := by
  set key : ℚ := (((n / 100).floor : ℤ) : ℚ) with hkey
  have hpc : Citations.findParagraphCitations
      (some (Citations.createCitationMap citations)) key =
      Citations.indexedCards (Citations.createCitationMap citations) "paragraph" key :=
    findParagraphCitations_some _ _
  have hmem : ∀ c : Int,
      c ∈ Citations.findParagraphCitations
        (some (Citations.createCitationMap citations)) key ↔
      ∃ citation ∈ citations, citation.citation_type = "paragraph" ∧
        citation.card_id = c ∧ citation.hits key := by
    intro c
    rw [hpc, createCitationMap_mem]
  constructor
  · rintro hex
    obtain ⟨citation, hc, ht, hh⟩ := hex
    have hnonempty : Citations.findParagraphCitations
        (some (Citations.createCitationMap citations)) key ≠ [] := by
      intro hnil
      have := (hmem citation.card_id).mpr ⟨citation, hc, ht, rfl, hh⟩
      rw [hnil] at this
      exact absurd this (List.not_mem_nil _)
    have hlen : 0 < (Citations.findParagraphCitations
        (some (Citations.createCitationMap citations)) key).length :=
      List.length_pos.mpr hnonempty
    constructor
    · show (Citations.findCitations none "sentence_range" n citations).1 = _
      unfold Citations.findCitations
      simp only [↓reduceIte, ← hkey, hlen, if_pos]
    · unfold Citations.shouldHighlight
      rw [if_neg (by decide), if_neg (by decide), if_pos rfl]
      simp only [← hkey, decide_eq_false_iff_not]
      omega
  · intro hnone
    have hempty : Citations.findParagraphCitations
        (some (Citations.createCitationMap citations)) key = [] := by
      rcases h : Citations.findParagraphCitations
          (some (Citations.createCitationMap citations)) key with _ | ⟨c, rest⟩
      · rfl
      · exfalso
        have hc : c ∈ Citations.findParagraphCitations
            (some (Citations.createCitationMap citations)) key := by
          rw [h]; exact List.mem_cons_self _ _
        obtain ⟨citation, h1, h2, h3, h4⟩ := (hmem c).mp hc
        exact hnone ⟨citation, h1, h2, h4⟩
    constructor
    · intro c
      have : (Citations.findCitations none "sentence_range" n citations).1 =
          Citations.typeLookup (Citations.createCitationMap citations)
            "sentence_range" n := by
        unfold Citations.findCitations
        simp only [↓reduceIte, ← hkey, hempty, List.length_nil, if_neg (by omega : ¬ 0 < 0)]
      rw [this, typeLookup_eq, jsDedup_mem, createCitationMap_mem]
    · unfold Citations.shouldHighlight
      rw [if_neg (by decide), if_neg (by decide), if_pos rfl]
      simp only [← hkey, hempty, List.length_nil, decide_eq_true_eq]

/-- Witness for **C10**: with a single `paragraph` citation of card 1 covering
paragraph 0, the `sentence_range` lookup at sentence 5 returns the paragraph
citations of paragraph `floor(5/100) = 0` and highlighting is suppressed. -/
theorem c10_sentence_paragraph_scheme_witness :
    (Citations.findCitations none "sentence_range" 5
        [⟨0, "paragraph", [(0, 0)], 1⟩]).1 =
      Citations.findParagraphCitations
        (some (Citations.createCitationMap [⟨0, "paragraph", [(0, 0)], 1⟩]))
        ((((5 : ℚ) / 100).floor : ℤ) : ℚ) ∧
    Citations.shouldHighlight
      (some (Citations.createCitationMap [⟨0, "paragraph", [(0, 0)], 1⟩]))
      "sentence_range" 5 [⟨0, "paragraph", [(0, 0)], 1⟩] = false := by
  apply (c10_sentence_paragraph_scheme [⟨0, "paragraph", [(0, 0)], 1⟩] 5).1
  refine ⟨_, List.mem_singleton_self _, rfl, (0, 0), List.mem_singleton_self _, ?_⟩
  have h0 : ((((5 : ℚ) / 100).floor : ℤ) : ℚ) = 0 := by
    rw [ratFloor_eq_intFloor]
    norm_num
  rw [h0, mem_rangePositions]
  exact ⟨0, by norm_num, by norm_num⟩

/-- Witness for **C4** at the spec's example: a `table` citation of card 7
with range `[5, 8]` is found at unit 5 and not at unit 4. -/
theorem c4_range_inclusive_witness :
    7 ∈ Citations.indexedCards
        (Citations.createCitationMap [⟨0, "table", [(5, 8)], 7⟩]) "table" 5 ∧
    7 ∉ Citations.indexedCards
        (Citations.createCitationMap [⟨0, "table", [(5, 8)], 7⟩]) "table" 4 := by
  constructor
  · exact (c4_range_inclusive [⟨0, "table", [(5, 8)], 7⟩] "table" 5 7
      (by decide) (by decide)).mpr (by decide)
  · intro h
    exact absurd ((c4_range_inclusive [⟨0, "table", [(5, 8)], 7⟩] "table" 4 7
      (by decide) (by decide)).mp h) (by decide)

/-- **C6**: a citation with an unrecognized `citation_type` is skipped by the
index build of `EditSetForm.createCitationMap` (the `switch` yields no target
map and the loop `continue`s): removing it from the citation list yields the
very same built index, so every other citation is indexed identically and no
failure occurs (the embedding is total). -/
theorem c6_unknown_type_skipped (l1 l2 : List Citation) (bogus : Citation)
    (documentJson : EditSetForm.DocJson)
    (h : bogus.citation_type ∉ (["sentence_range", "paragraph", "section", "list",
      "table", "video_timestamp"] : List String)) :
    EditSetForm.createCitationMap (l1 ++ bogus :: l2) documentJson =
      EditSetForm.createCitationMap (l1 ++ l2) documentJson := by
  have hstep : ∀ map : EditSetForm.CitationMap,
      EditSetForm.firstPassStep documentJson map bogus = map := by
    intro map
    unfold EditSetForm.firstPassStep
    split
    all_goals first
      | rfl
      | (rename_i heq; exact absurd (by rw [heq]; decide) h)
  have hfp : EditSetForm.firstPass documentJson (l1 ++ bogus :: l2) =
      EditSetForm.firstPass documentJson (l1 ++ l2) := by
    unfold EditSetForm.firstPass
    rw [List.foldl_append, List.foldl_append, List.foldl_cons, hstep]
  unfold EditSetForm.createCitationMap
  rw [hfp]

/-- Witness for **C6**: a `"bogus"`-typed citation inserted after a `table`
citation leaves the built index unchanged. -/
theorem c6_unknown_type_skipped_witness :
    EditSetForm.createCitationMap
        [⟨0, "table", [(1, 2)], 5⟩, ⟨1, "bogus", [(1, 2)], 6⟩] ⟨[]⟩ =
      EditSetForm.createCitationMap [⟨0, "table", [(1, 2)], 5⟩] ⟨[]⟩ :=
  c6_unknown_type_skipped [⟨0, "table", [(1, 2)], 5⟩] [] ⟨1, "bogus", [(1, 2)], 6⟩
    ⟨[]⟩ (by decide)

/-- **C5** counterexample: the claim "every lookup result contains each
card_id at most once" fails for `utils/citations.ts`. Two `paragraph`
citations sharing `card_id` 1 both covering paragraph 0 store the entry
`[1, 1]`, and a `sentence_range` lookup at sentence 5 collapses to the
paragraph entry and returns it without deduplication. -/
theorem c5_lookup_duplicate_counterexample :
    (Citations.findCitations none "sentence_range" 5
        [⟨0, "paragraph", [(0, 0)], 1⟩, ⟨1, "paragraph", [(0, 0)], 1⟩]).1 = [1, 1] ∧
    ¬ ((Citations.findCitations none "sentence_range" 5
        [⟨0, "paragraph", [(0, 0)], 1⟩, ⟨1, "paragraph", [(0, 0)], 1⟩]).1).Nodup := by
  have h : (Citations.findCitations none "sentence_range" 5
      [⟨0, "paragraph", [(0, 0)], 1⟩, ⟨1, "paragraph", [(0, 0)], 1⟩]).1 = [1, 1] := by
    with_unfolding_all rfl
  refine ⟨h, ?_⟩
  rw [h]
  decide

theorem nodupVals_mapSet {m : EditSetForm.NumMap} {k : ℚ} {v : List Int}
    (hm : ∀ q : ℚ, ((mapGet m q).getD []).Nodup) (hv : v.Nodup) :
    ∀ q : ℚ, ((mapGet (mapSet m k v) q).getD []).Nodup := by
  intro q
  by_cases hq : q = k
  · subst hq
    rw [mapGet_set_self]
    exact hv
  · rw [mapGet_set_ne _ _ _ _ hq]
    exact hm q

theorem nodupVals_mapDelete {m : EditSetForm.NumMap} {k : ℚ}
    (hm : ∀ q : ℚ, ((mapGet m q).getD []).Nodup) :
    ∀ q : ℚ, ((mapGet (mapDelete m k) q).getD []).Nodup := by
  intro q
  by_cases hq : q = k
  · subst hq
    rw [mapGet_mapDelete_self]
    exact List.nodup_nil
  · rw [mapGet_mapDelete_ne _ _ _ hq]
    exact hm q

theorem nodupVals_insertDiscrete (citation : Citation) (tm : EditSetForm.NumMap)
    (hm : ∀ q : ℚ, ((mapGet tm q).getD []).Nodup) :
    ∀ q : ℚ, ((mapGet (EditSetForm.insertDiscrete citation tm) q).getD []).Nodup := by
  unfold EditSetForm.insertDiscrete
  refine foldl_preserves (fun tm => ∀ q : ℚ, ((mapGet tm q).getD []).Nodup) _
    ?_ citation.citation_data tm hm
  intro tm pr h
  refine foldl_preserves (fun tm => ∀ q : ℚ, ((mapGet tm q).getD []).Nodup) _
    ?_ (rangePositions pr.1 pr.2) tm h
  intro tm num h
  exact nodupVals_mapSet h (jsDedup_nodup _)

theorem nodupVals_insertVideo (documentJson : EditSetForm.DocJson)
    (citation : Citation) (tm : EditSetForm.NumMap)
    (hm : ∀ q : ℚ, ((mapGet tm q).getD []).Nodup) :
    ∀ q : ℚ, ((mapGet (EditSetForm.insertVideo documentJson citation tm) q).getD []).Nodup := by
  unfold EditSetForm.insertVideo
  refine foldl_preserves (fun tm => ∀ q : ℚ, ((mapGet tm q).getD []).Nodup) _ ?_ _ tm hm
  intro tm gi h
  split
  · exact nodupVals_mapSet h (jsDedup_nodup _)
  · exact h

/-- All six maps built by the first pass store duplicate-free card lists. -/
theorem nodupVals_firstPass (documentJson : EditSetForm.DocJson)
    (citations : List Citation) (k : EditSetForm.ElemKey) :
    ∀ q : ℚ,
      ((mapGet ((EditSetForm.firstPass documentJson citations).proj k) q).getD []).Nodup := by
  suffices h : ∀ k : EditSetForm.ElemKey, ∀ q : ℚ,
      ((mapGet ((EditSetForm.firstPass documentJson citations).proj k) q).getD []).Nodup from
    h k
  intro k
  unfold EditSetForm.firstPass
  have hbase : ∀ k : EditSetForm.ElemKey, ∀ q : ℚ,
      ((mapGet ((⟨[], [], [], [], [], []⟩ : EditSetForm.CitationMap).proj k) q).getD []).Nodup := by
    rintro (_ | _ | _ | _ | _ | _) q <;> exact List.nodup_nil
  refine foldl_preserves
    (fun map : EditSetForm.CitationMap => ∀ (k : EditSetForm.ElemKey) (q : ℚ),
      ((mapGet (map.proj k) q).getD []).Nodup) _ ?_ citations _ hbase k
  intro map citation h
  unfold EditSetForm.firstPassStep
  split <;> rintro (_ | _ | _ | _ | _ | _) <;>
    simp only [EditSetForm.CitationMap.proj] <;>
    first
      | exact nodupVals_insertDiscrete citation _ (h .sentences)
      | exact nodupVals_insertDiscrete citation _ (h .paragraphs)
      | exact nodupVals_insertDiscrete citation _ (h .sections)
      | exact nodupVals_insertDiscrete citation _ (h .lists)
      | exact nodupVals_insertDiscrete citation _ (h .tables)
      | exact nodupVals_insertVideo documentJson citation _ (h .segments)
      | exact h .sentences
      | exact h .paragraphs
      | exact h .sections
      | exact h .lists
      | exact h .tables
      | exact h .segments

theorem nodupVals_gatherFold (sns : List Nat) (p : List Int × EditSetForm.NumMap)
    (hm : ∀ q : ℚ, ((mapGet p.2 q).getD []).Nodup) :
    ∀ q : ℚ, ((mapGet (sns.foldl EditSetForm.gatherStep p).2 q).getD []).Nodup := by
  refine foldl_preserves
    (fun p : List Int × EditSetForm.NumMap => ∀ q : ℚ, ((mapGet p.2 q).getD []).Nodup)
    _ ?_ sns p hm
  intro p sn h
  intro q
  unfold EditSetForm.gatherStep
  dsimp only
  split
  · exact nodupVals_mapDelete h q
  · exact h q

theorem nodupVals_collapseItem (st : EditSetForm.CollapseState)
    (item : EditSetForm.DocItem)
    (hs : ∀ q : ℚ, ((mapGet st.sentences q).getD []).Nodup)
    (hp : ∀ q : ℚ, ((mapGet st.paragraphs q).getD []).Nodup) :
    (∀ q : ℚ, ((mapGet (EditSetForm.collapseItem st item).sentences q).getD []).Nodup) ∧
    (∀ q : ℚ, ((mapGet (EditSetForm.collapseItem st item).paragraphs q).getD []).Nodup) := by
  unfold EditSetForm.collapseItem
  cases item.sentences with
  | none => exact ⟨hs, hp⟩
  | some len =>
    dsimp only
    split
    · constructor
      · exact nodupVals_gatherFold _ _ hs
      · split
        · exact nodupVals_mapSet hp (jsDedup_nodup _)
        · exact hp
    · exact ⟨hs, hp⟩

theorem nodupVals_collapsePass (documentJson : EditSetForm.DocJson)
    (st : EditSetForm.CollapseState)
    (hs : ∀ q : ℚ, ((mapGet st.sentences q).getD []).Nodup)
    (hp : ∀ q : ℚ, ((mapGet st.paragraphs q).getD []).Nodup) :
    (∀ q : ℚ, ((mapGet (EditSetForm.collapsePass documentJson st).sentences q).getD []).Nodup) ∧
    (∀ q : ℚ, ((mapGet (EditSetForm.collapsePass documentJson st).paragraphs q).getD []).Nodup) := by
  unfold EditSetForm.collapsePass
  refine foldl_preserves
    (fun st : EditSetForm.CollapseState =>
      (∀ q : ℚ, ((mapGet st.sentences q).getD []).Nodup) ∧
      (∀ q : ℚ, ((mapGet st.paragraphs q).getD []).Nodup))
    _ ?_ documentJson.sections st ⟨hs, hp⟩
  intro st sec h
  refine foldl_preserves
    (fun st : EditSetForm.CollapseState =>
      (∀ q : ℚ, ((mapGet st.sentences q).getD []).Nodup) ∧
      (∀ q : ℚ, ((mapGet st.paragraphs q).getD []).Nodup))
    _ ?_ sec.content st h
  intro st item h
  exact nodupVals_collapseItem st item h.1 h.2

/-- **C5** (amended): lookup results through `EditSetForm.createCitationMap` /
`getCombinedCitations` contain each `card_id` at most once for every type and
unit number; `utils/citations.ts` `findCitations` results are likewise
deduplicated EXCEPT on the `sentence_range` collapse path, which returns the
stored paragraph entry unchanged (see the counterexample) — here stated for
queries whose collapse target is empty. -/
theorem c5_lookup_dedup_amended :
    (∀ (citations : List Citation) (documentJson : EditSetForm.DocJson)
        (elementType : EditSetForm.ElemKey) (elementNum : ℚ),
      (EditSetForm.getCombinedCitations
        (EditSetForm.createCitationMap citations documentJson)
        elementType elementNum).Nodup) ∧
    (∀ (citations : List Citation) (elementType : String) (elementNum : ℚ),
      (elementType = "sentence_range" →
        Citations.findParagraphCitations
          (some (Citations.createCitationMap citations))
          (((elementNum / 100).floor : ℤ) : ℚ) = []) →
      ((Citations.findCitations none elementType elementNum citations).1).Nodup) := by
  constructor
  · intro citations documentJson elementType elementNum
    unfold EditSetForm.getCombinedCitations EditSetForm.createCitationMap
    have h := nodupVals_collapsePass documentJson
      ⟨(EditSetForm.firstPass documentJson citations).sentences,
       (EditSetForm.firstPass documentJson citations).paragraphs, 1, 1⟩
      (nodupVals_firstPass documentJson citations .sentences)
      (nodupVals_firstPass documentJson citations .paragraphs)
    cases elementType <;>
      simp only [EditSetForm.CitationMap.proj] <;>
      first
        | exact h.1 elementNum
        | exact h.2 elementNum
        | exact nodupVals_firstPass documentJson citations .sections elementNum
        | exact nodupVals_firstPass documentJson citations .lists elementNum
        | exact nodupVals_firstPass documentJson citations .tables elementNum
        | exact nodupVals_firstPass documentJson citations .segments elementNum
  · intro citations elementType elementNum hcollapse
    unfold Citations.findCitations
    by_cases ht : elementType = "sentence_range"
    · subst ht
      simp only [↓reduceIte, hcollapse rfl, List.length_nil,
        if_neg (by omega : ¬ (0 : ℕ) > 0)]
      rw [typeLookup_eq]
      exact jsDedup_nodup _
    · simp only [if_neg ht]
      rw [typeLookup_eq]
      exact jsDedup_nodup _

/-- Witness for the amended **C5**: concrete duplicate-free lookups via both
implementations. -/
theorem c5_lookup_dedup_amended_witness :
    (EditSetForm.getCombinedCitations
      (EditSetForm.createCitationMap [⟨0, "table", [(1, 2)], 5⟩] ⟨[]⟩) .tables 1).Nodup ∧
    ((Citations.findCitations none "table" 1 [⟨0, "table", [(1, 2)], 5⟩]).1).Nodup :=
  ⟨c5_lookup_dedup_amended.1 [⟨0, "table", [(1, 2)], 5⟩] ⟨[]⟩ .tables 1,
   c5_lookup_dedup_amended.2 [⟨0, "table", [(1, 2)], 5⟩] "table" 1
     (fun h => absurd h (by decide))⟩

/-- **C7**: lookups at unit numbers with no indexed entry return an empty
collection and cannot fail (the embedding is total). Stated three ways:
(1) `getCombinedCitations` on any built map returns `[]` when the type's map
has no entry; (2) on the full `EditSetForm.createCitationMap`, any discrete
type and any unit number hit by no citation of that type (in particular every
number beyond the document's ranges) yields `[]` — the collapse pass never
populates such an entry; (3) `findCitations` of `utils/citations.ts` returns
`[]` when the built index has no entry for the query (for a `sentence_range`
query this includes the consulted paragraph entry at `floor(n/100)`). -/
theorem c7_absent_entry_empty :
    (∀ (citationMap : EditSetForm.CitationMap) (elementType : EditSetForm.ElemKey)
        (elementNum : ℚ),
      mapGet (citationMap.proj elementType) elementNum = none →
      EditSetForm.getCombinedCitations citationMap elementType elementNum = []) ∧
    (∀ (citations : List Citation) (documentJson : EditSetForm.DocJson)
        (elementType : EditSetForm.ElemKey) (elementNum : ℚ),
      elementType ≠ .segments →
      (∀ citation ∈ citations, citation.citation_type = elementType.typeTag →
        ¬ citation.hits elementNum) →
      EditSetForm.getCombinedCitations
        (EditSetForm.createCitationMap citations documentJson) elementType elementNum = []) ∧
    (∀ (citations : List Citation) (elementType : String) (elementNum : ℚ),
      Citations.indexedCards (Citations.createCitationMap citations)
          elementType elementNum = [] →
      (elementType = "sentence_range" →
        Citations.findParagraphCitations (some (Citations.createCitationMap citations))
          (((elementNum / 100).floor : ℤ) : ℚ) = []) →
      (Citations.findCitations none elementType elementNum citations).1 = []) := by
  refine ⟨?_, ?_, ?_⟩
  · intro citationMap elementType elementNum h
    unfold EditSetForm.getCombinedCitations
    rw [h]
    rfl
  · intro citations documentJson elementType elementNum hk hnone
    have hfp : (mapGet ((EditSetForm.firstPass documentJson citations).proj elementType)
        elementNum).getD [] = [] := by
      rw [List.eq_nil_iff_forall_not_mem]
      intro c hc
      obtain ⟨citation, hmem, ht, hcard, hhits⟩ :=
        (EditSetForm.firstPass_mem documentJson citations elementType hk
          elementNum c).mp hc
      exact hnone citation hmem ht hhits
    unfold EditSetForm.getCombinedCitations EditSetForm.createCitationMap
    cases elementType with
    | sentences =>
      exact EditSetForm.collapsePass_sent_empty documentJson _ elementNum hfp
    | paragraphs =>
      exact EditSetForm.collapsePass_par_empty documentJson _ elementNum hfp
    | sections => exact hfp
    | lists => exact hfp
    | tables => exact hfp
    | segments => exact absurd rfl hk
  · intro citations elementType elementNum hidx hcollapse
    unfold Citations.findCitations
    by_cases ht : elementType = "sentence_range"
    · subst ht
      simp only [↓reduceIte, hcollapse rfl, List.length_nil,
        if_neg (by omega : ¬ (0 : ℕ) > 0)]
      rw [typeLookup_eq, hidx]
      rfl
    · simp only [if_neg ht]
      rw [typeLookup_eq, hidx]
      rfl

/-- Witness for **C7**: with one `table` citation, a `lists` lookup (no `list`
citations exist) and an out-of-scope `list` query under `findCitations` both
return the empty collection. -/
theorem c7_absent_entry_empty_witness :
    EditSetForm.getCombinedCitations
      (EditSetForm.createCitationMap [⟨0, "table", [(1, 2)], 5⟩] ⟨[]⟩) .lists 99 = [] ∧
    (Citations.findCitations none "list" 99 [⟨0, "table", [(1, 2)], 5⟩]).1 = [] := by
  constructor
  · exact c7_absent_entry_empty.2.1 [⟨0, "table", [(1, 2)], 5⟩] ⟨[]⟩ .lists 99
      (by decide)
      (by
        intro citation hmem ht
        rw [List.mem_singleton] at hmem
        subst hmem
        exact absurd ht (by decide))
  · exact c7_absent_entry_empty.2.2 [⟨0, "table", [(1, 2)], 5⟩] "list" 99
      (by with_unfolding_all rfl)
      (fun h => absurd h (by decide))

/-- **C2**: after the collapse pass of `EditSetForm.createCitationMap`, for
every paragraph of the document walk (span `(p, s0, len)` of `paraSpans`)
that has at least one direct paragraph-level citation, (a) every sentence
number in its span has an empty lookup, (b) every card that cited a sentence
in the span appears in the paragraph's lookup, and (c) the paragraph's direct
citers are kept there too. -/
theorem c2_collapse_subsumption (citations : List Citation)
    (documentJson : EditSetForm.DocJson) (p s0 len : Nat)
    (hmem : (p, s0, len) ∈ EditSetForm.paraSpans documentJson)
    (hpc : ∃ citation ∈ citations, citation.citation_type = "paragraph" ∧
      citation.hits (p : ℚ))
    (sn : Nat) (h1 : s0 ≤ sn) (h2 : sn < s0 + len) :
    EditSetForm.getCombinedCitations
        (EditSetForm.createCitationMap citations documentJson)
        .sentences (sn : ℚ) = [] ∧
    (∀ c : Int,
      (∃ citation ∈ citations, citation.citation_type = "sentence_range" ∧
        citation.card_id = c ∧ citation.hits (sn : ℚ)) →
      c ∈ EditSetForm.getCombinedCitations
        (EditSetForm.createCitationMap citations documentJson)
        .paragraphs (p : ℚ)) ∧
    (∀ c : Int,
      (∃ citation ∈ citations, citation.citation_type = "paragraph" ∧
        citation.card_id = c ∧ citation.hits (p : ℚ)) →
      c ∈ EditSetForm.getCombinedCitations
        (EditSetForm.createCitationMap citations documentJson)
        .paragraphs (p : ℚ)) := by
  have hMp_ne : (mapGet (EditSetForm.firstPass documentJson citations).paragraphs
      (p : ℚ)).getD [] ≠ [] := by
    obtain ⟨citation, hc, ht, hh⟩ := hpc
    apply List.ne_nil_of_mem (a := citation.card_id)
    exact (EditSetForm.firstPass_mem documentJson citations .paragraphs
      (by decide) (p : ℚ) citation.card_id).mpr ⟨citation, hc, ht, rfl, hh⟩
  have hwalk := EditSetForm.walk_spans
    (EditSetForm.firstPass documentJson citations).sentences
    (EditSetForm.firstPass documentJson citations).paragraphs
    (EditSetForm.docItems documentJson)
    ⟨(EditSetForm.firstPass documentJson citations).sentences,
     (EditSetForm.firstPass documentJson citations).paragraphs, 1, 1⟩
    (fun qn _ => rfl) (fun qn _ => rfl) p s0 len hmem
  have hres := hwalk.1 hMp_ne
  have hsent_eq : (EditSetForm.createCitationMap citations documentJson).sentences =
      ((EditSetForm.docItems documentJson).foldl EditSetForm.collapseItem
        ⟨(EditSetForm.firstPass documentJson citations).sentences,
         (EditSetForm.firstPass documentJson citations).paragraphs, 1, 1⟩).sentences := by
    show (EditSetForm.collapsePass documentJson
      ⟨(EditSetForm.firstPass documentJson citations).sentences,
       (EditSetForm.firstPass documentJson citations).paragraphs, 1, 1⟩).sentences = _
    rw [EditSetForm.collapsePass_eq_foldl]
  have hpar_eq : (EditSetForm.createCitationMap citations documentJson).paragraphs =
      ((EditSetForm.docItems documentJson).foldl EditSetForm.collapseItem
        ⟨(EditSetForm.firstPass documentJson citations).sentences,
         (EditSetForm.firstPass documentJson citations).paragraphs, 1, 1⟩).paragraphs := by
    show (EditSetForm.collapsePass documentJson
      ⟨(EditSetForm.firstPass documentJson citations).sentences,
       (EditSetForm.firstPass documentJson citations).paragraphs, 1, 1⟩).paragraphs = _
    rw [EditSetForm.collapsePass_eq_foldl]
  refine ⟨?_, ?_, ?_⟩
  · show (mapGet (EditSetForm.createCitationMap citations documentJson).sentences
      (sn : ℚ)).getD [] = []
    rw [hsent_eq]
    exact hres.1 sn h1 h2
  · intro c hc
    obtain ⟨citation, hcm, ht, hcard, hh⟩ := hc
    have hms : c ∈ (mapGet (EditSetForm.firstPass documentJson citations).sentences
        (sn : ℚ)).getD [] :=
      (EditSetForm.firstPass_mem documentJson citations .sentences (by decide)
        (sn : ℚ) c).mpr ⟨citation, hcm, ht, hcard, hh⟩
    show c ∈ (mapGet (EditSetForm.createCitationMap citations documentJson).paragraphs
      (p : ℚ)).getD []
    rw [hpar_eq]
    exact hres.2.1 sn h1 h2 c hms
  · intro c hc
    obtain ⟨citation, hcm, ht, hcard, hh⟩ := hc
    have hmp : c ∈ (mapGet (EditSetForm.firstPass documentJson citations).paragraphs
        (p : ℚ)).getD [] :=
      (EditSetForm.firstPass_mem documentJson citations .paragraphs (by decide)
        (p : ℚ) c).mpr ⟨citation, hcm, ht, hcard, hh⟩
    show c ∈ (mapGet (EditSetForm.createCitationMap citations documentJson).paragraphs
      (p : ℚ)).getD []
    rw [hpar_eq]
    exact hres.2.2 c hmp

/-- Witness for **C2** at the spec's example: paragraph 3 (sentences 8–9 in a
3/4/2-sentence document) cited by card 10, sentence 8 cited by card 11. After
collapse, `lookup(paragraph, 3)` contains 10 and 11 and
`lookup(sentence_range, 8)` is empty. -/
theorem c2_collapse_subsumption_witness :
    EditSetForm.getCombinedCitations
        (EditSetForm.createCitationMap
          [⟨0, "paragraph", [(3, 3)], 10⟩, ⟨1, "sentence_range", [(8, 8)], 11⟩]
          ⟨[⟨[⟨some 3, none, none⟩, ⟨some 4, none, none⟩, ⟨some 2, none, none⟩]⟩]⟩)
        .sentences ((8 : Nat) : ℚ) = [] ∧
    (11 : Int) ∈ EditSetForm.getCombinedCitations
        (EditSetForm.createCitationMap
          [⟨0, "paragraph", [(3, 3)], 10⟩, ⟨1, "sentence_range", [(8, 8)], 11⟩]
          ⟨[⟨[⟨some 3, none, none⟩, ⟨some 4, none, none⟩, ⟨some 2, none, none⟩]⟩]⟩)
        .paragraphs ((3 : Nat) : ℚ) ∧
    (10 : Int) ∈ EditSetForm.getCombinedCitations
        (EditSetForm.createCitationMap
          [⟨0, "paragraph", [(3, 3)], 10⟩, ⟨1, "sentence_range", [(8, 8)], 11⟩]
          ⟨[⟨[⟨some 3, none, none⟩, ⟨some 4, none, none⟩, ⟨some 2, none, none⟩]⟩]⟩)
        .paragraphs ((3 : Nat) : ℚ) := by
  have h := c2_collapse_subsumption
    [⟨0, "paragraph", [(3, 3)], 10⟩, ⟨1, "sentence_range", [(8, 8)], 11⟩]
    ⟨[⟨[⟨some 3, none, none⟩, ⟨some 4, none, none⟩, ⟨some 2, none, none⟩]⟩]⟩
    3 8 2 (by decide) (by with_unfolding_all decide) 8 (by omega) (by omega)
  exact ⟨h.1, h.2.1 11 (by with_unfolding_all decide),
    h.2.2 10 (by with_unfolding_all decide)⟩

/-- **C3**: a paragraph of the walk with no paragraph-level citation is left
alone by the collapse pass: its own lookup is (and stays) empty, and every
sentence in its span keeps exactly its own first-pass citation entry — i.e.
its lookup lists exactly the cards of the `sentence_range` citations hitting
it. -/
theorem c3_no_collapse_independence (citations : List Citation)
    (documentJson : EditSetForm.DocJson) (p s0 len : Nat)
    (hmem : (p, s0, len) ∈ EditSetForm.paraSpans documentJson)
    (hpc : ¬ ∃ citation ∈ citations, citation.citation_type = "paragraph" ∧
      citation.hits (p : ℚ)) :
    EditSetForm.getCombinedCitations
        (EditSetForm.createCitationMap citations documentJson)
        .paragraphs (p : ℚ) = [] ∧
    ∀ sn : Nat, s0 ≤ sn → sn < s0 + len →
      mapGet (EditSetForm.createCitationMap citations documentJson).sentences
          (sn : ℚ) =
        mapGet (EditSetForm.firstPass documentJson citations).sentences (sn : ℚ) ∧
      (∀ c : Int,
        c ∈ EditSetForm.getCombinedCitations
          (EditSetForm.createCitationMap citations documentJson)
          .sentences (sn : ℚ) ↔
        ∃ citation ∈ citations, citation.citation_type = "sentence_range" ∧
          citation.card_id = c ∧ citation.hits (sn : ℚ)) := by
  have hMp_empty : (mapGet (EditSetForm.firstPass documentJson citations).paragraphs
      (p : ℚ)).getD [] = [] := by
    rw [List.eq_nil_iff_forall_not_mem]
    intro c hc
    obtain ⟨citation, hcm, ht, hcard, hh⟩ :=
      (EditSetForm.firstPass_mem documentJson citations .paragraphs (by decide)
        (p : ℚ) c).mp hc
    exact hpc ⟨citation, hcm, ht, hh⟩
  have hwalk := EditSetForm.walk_spans
    (EditSetForm.firstPass documentJson citations).sentences
    (EditSetForm.firstPass documentJson citations).paragraphs
    (EditSetForm.docItems documentJson)
    ⟨(EditSetForm.firstPass documentJson citations).sentences,
     (EditSetForm.firstPass documentJson citations).paragraphs, 1, 1⟩
    (fun qn _ => rfl) (fun qn _ => rfl) p s0 len hmem
  have hres := hwalk.2 hMp_empty
  have hsent_eq : (EditSetForm.createCitationMap citations documentJson).sentences =
      ((EditSetForm.docItems documentJson).foldl EditSetForm.collapseItem
        ⟨(EditSetForm.firstPass documentJson citations).sentences,
         (EditSetForm.firstPass documentJson citations).paragraphs, 1, 1⟩).sentences := by
    show (EditSetForm.collapsePass documentJson
      ⟨(EditSetForm.firstPass documentJson citations).sentences,
       (EditSetForm.firstPass documentJson citations).paragraphs, 1, 1⟩).sentences = _
    rw [EditSetForm.collapsePass_eq_foldl]
  have hpar_eq : (EditSetForm.createCitationMap citations documentJson).paragraphs =
      ((EditSetForm.docItems documentJson).foldl EditSetForm.collapseItem
        ⟨(EditSetForm.firstPass documentJson citations).sentences,
         (EditSetForm.firstPass documentJson citations).paragraphs, 1, 1⟩).paragraphs := by
    show (EditSetForm.collapsePass documentJson
      ⟨(EditSetForm.firstPass documentJson citations).sentences,
       (EditSetForm.firstPass documentJson citations).paragraphs, 1, 1⟩).paragraphs = _
    rw [EditSetForm.collapsePass_eq_foldl]
  constructor
  · show (mapGet (EditSetForm.createCitationMap citations documentJson).paragraphs
      (p : ℚ)).getD [] = []
    rw [hpar_eq, hres.2]
    exact hMp_empty
  · intro sn h1 h2
    have hentry : mapGet (EditSetForm.createCitationMap citations documentJson).sentences
        (sn : ℚ) =
        mapGet (EditSetForm.firstPass documentJson citations).sentences (sn : ℚ) := by
      rw [hsent_eq]
      exact hres.1 sn h1 h2
    refine ⟨hentry, ?_⟩
    intro c
    show c ∈ (mapGet (EditSetForm.createCitationMap citations documentJson).sentences
      (sn : ℚ)).getD [] ↔ _
    rw [hentry]
    exact EditSetForm.firstPass_mem documentJson citations .sentences (by decide)
      (sn : ℚ) c

/-- Witness for **C3** at the spec's example: paragraph 4 (sentences 10–12 in
a 3/3/3/3-sentence document) has no paragraph citation; sentence 12 cited by
card 20 keeps `lookup(sentence_range, 12) ∋ 20` and `lookup(paragraph, 4)` is
empty. -/
theorem c3_no_collapse_independence_witness :
    EditSetForm.getCombinedCitations
        (EditSetForm.createCitationMap [⟨0, "sentence_range", [(12, 12)], 20⟩]
          ⟨[⟨[⟨some 3, none, none⟩, ⟨some 3, none, none⟩, ⟨some 3, none, none⟩,
              ⟨some 3, none, none⟩]⟩]⟩)
        .paragraphs ((4 : Nat) : ℚ) = [] ∧
    (20 : Int) ∈ EditSetForm.getCombinedCitations
        (EditSetForm.createCitationMap [⟨0, "sentence_range", [(12, 12)], 20⟩]
          ⟨[⟨[⟨some 3, none, none⟩, ⟨some 3, none, none⟩, ⟨some 3, none, none⟩,
              ⟨some 3, none, none⟩]⟩]⟩)
        .sentences ((12 : Nat) : ℚ) := by
  have h := c3_no_collapse_independence [⟨0, "sentence_range", [(12, 12)], 20⟩]
    ⟨[⟨[⟨some 3, none, none⟩, ⟨some 3, none, none⟩, ⟨some 3, none, none⟩,
        ⟨some 3, none, none⟩]⟩]⟩
    4 10 3 (by decide) (by with_unfolding_all decide)
  refine ⟨h.1, ?_⟩
  exact ((h.2 12 (by omega) (by omega)).2 20).mpr (by with_unfolding_all decide)

end Flashcard
